import Mathlib

/-!
A shallow embedding of the class `WavFile` of wav_enc (src/wav_enc.h).

The class `WavFile` owns a `std::ofstream`, three format parameters and a
32-bit payload counter.  The stream is embedded as a record holding the bytes
of the file it is bound to, the put position, whether a file is attached, and
whether `fail()` holds (`failbit` or `badbit`).  Bytes are natural numbers
below 256.  Unsigned 32/16-bit arithmetic is arithmetic on `Nat` reduced
modulo `2^32` / `2^16`.  Object representations (`memcpy`, `reinterpret_cast`)
are those of a little-endian, two's-complement host.  A finite `double` is the
rational number it denotes; the product of two doubles is the exact product
rounded to IEEE binary64 (to nearest, ties to even; no result on overflow); the
conversion to an integer type truncates and is undefined (here: `none`) when
the truncated value does not fit the destination type.
-/

namespace WavEnc

/-! ## Machine integers and object representations -/

/-- Reduction to `std::uint32_t`. -/
def u32 (n : Nat) : Nat := n % 4294967296

/-- Reduction to `std::uint16_t`. -/
def u16 (n : Nat) : Nat := n % 65536

/-- The `n` low-order bytes of `v`, least significant first. -/
def le_bytes : Nat → Nat → List Nat
  | 0, _ => []
  | n + 1, v => (v % 256) :: le_bytes n (v / 256)

/-- The value of a little-endian byte string. -/
def le_value : List Nat → Nat
  | [] => 0
  | b :: bs => b + 256 * le_value bs

/-- Object representation of a `std::int16_t` holding `v`. -/
def int16_bytes (v : Int) : List Nat := le_bytes 2 (v % 65536).toNat

/-- Object representation of a `std::int32_t` holding `v`. -/
def int32_bytes (v : Int) : List Nat := le_bytes 4 (v % 4294967296).toNat

/-- The effect of `memcpy( &dst[off], src, src.length )` on the array `dst`. -/
def memcpy (dst : List Nat) (off : Nat) (src : List Nat) : List Nat :=
  dst.take off ++ src ++ dst.drop (off + src.length)

/-- The bytes `l[off .. off + n)`. -/
def slice (l : List Nat) (off n : Nat) : List Nat := (l.drop off).take n

/-- The character codes of a string. -/
def ascii (s : String) : List Nat := s.toList.map Char.toNat

/-! ## The output stream -/

/-- The state of a `std::ofstream`: `file` holds the bytes of the file most recently
attached, `pos` the put position, `fail` the value of `fail()`. -/
structure ofstream where
  is_open : Bool
  fail : Bool
  file : List Nat
  pos : Nat
deriving DecidableEq, Repr

/-- Writing `bytes` into a file at offset `pos`; a gap past the end reads as zeros. -/
def write_at (file : List Nat) (pos : Nat) (bytes : List Nat) : List Nat :=
  file.take pos ++ List.replicate (pos - file.length) 0 ++ bytes
    ++ file.drop (pos + bytes.length)

namespace ofstream

/-- A default-constructed stream: no file attached, no error flag. -/
def init : ofstream := { is_open := false, fail := false, file := [], pos := 0 }

/-- The call `open( file, std::ios::out | std::ios::binary )`; `ok` says whether the
system grants the file.  Fails when a file is already attached; success truncates
the file and clears the error state. -/
def «open» (s : ofstream) (ok : Bool) : ofstream :=
  if s.is_open then { s with fail := true }
  else if ok then { is_open := true, fail := false, file := [], pos := 0 }
  else { s with fail := true }

/-- The call `seekp( off, std::ios::beg )`. -/
def seekp (s : ofstream) (off : Nat) : ofstream :=
  if s.fail then s
  else if s.is_open then { s with pos := off }
  else { s with fail := true }

/-- The call `write( bytes, bytes.length )`. -/
def write (s : ofstream) (bytes : List Nat) : ofstream :=
  if s.fail then s
  else if s.is_open then
    { s with file := write_at s.file s.pos bytes, pos := s.pos + bytes.length }
  else { s with fail := true }

/-- The call `close()`. -/
def close (s : ofstream) : ofstream :=
  if s.is_open then { s with is_open := false }
  else { s with fail := true }

end ofstream

/-! ## The writer -/

/-- The constant `WavFile::header_size_`. -/
def header_size_ : Nat := 44

/-- The enumeration `WavFile::bit_depth_t`. -/
inductive bit_depth_t where
  | WAV_16BIT
  | WAV_24BIT
deriving DecidableEq, Repr

/-- The enumerator values of `bit_depth_t`. -/
def bit_depth_t.val : bit_depth_t → Nat
  | .WAV_16BIT => 2
  | .WAV_24BIT => 3

/-- The enumeration `WavFile::channels_t`. -/
inductive channels_t where
  | WAV_MONO
  | WAV_STEREO
deriving DecidableEq, Repr

/-- The enumerator values of `channels_t`. -/
def channels_t.val : channels_t → Nat
  | .WAV_MONO => 1
  | .WAV_STEREO => 2

/-- The data members of `WavFile`. -/
structure WavFile where
  fout_ : ofstream
  sample_rate_ : Nat
  bit_depth_ : bit_depth_t
  channels_ : channels_t
  data_size_ : Nat
deriving DecidableEq, Repr

/-- The initial contents of the local array `wav_header` in `close`. -/
def wav_header_init : List Nat :=
  [0x52, 0x49, 0x46, 0x46, 0x00, 0x00, 0x00, 0x00,
   0x57, 0x41, 0x56, 0x45, 0x66, 0x6d, 0x74, 0x20,
   0x10, 0x00, 0x00, 0x00, 0x01, 0x00, 0x00, 0x00,
   0x00, 0x00, 0x00, 0x00, 0x00, 0x00, 0x00, 0x00,
   0x00, 0x00, 0x00, 0x00, 0x64, 0x61, 0x74, 0x61,
   0x00, 0x00, 0x00, 0x00]

/-- Conversion of a floating-point value to a signed integer type with range
`[lo, hi]`: the fractional part is discarded; no result when the truncated value
is not representable. -/
def static_cast_int (lo hi : Int) (x : ℚ) : Option Int :=
  let t := Int.tdiv x.num x.den
  if lo ≤ t ∧ t ≤ hi then some t else none

/-- Rounding to the nearest integer, ties to the even one. -/
def round_half_even (r : ℚ) : Int :=
  if r - ⌊r⌋ < 1 / 2 then ⌊r⌋
  else if 1 / 2 < r - ⌊r⌋ then ⌊r⌋ + 1
  else if ⌊r⌋ % 2 = 0 then ⌊r⌋
  else ⌊r⌋ + 1

/-- The exponent of the unit in the last place of the binary64 format at `q`: 52 below the
binary exponent of `q`, and -1074 in the subnormal range. -/
def ulp_exponent (q : ℚ) : Int := max (Int.log 2 |q| - 52) (-1074)

/-- The multiple of the unit in the last place nearest to `q`, ties to the even multiple. -/
def round_value (q : ℚ) : ℚ :=
  (round_half_even (q / 2 ^ ulp_exponent q) : ℚ) * 2 ^ ulp_exponent q

/-- Rounding of a real result to a `double` (IEEE binary64, to nearest, ties to even); no
finite result when the rounded value overflows. -/
def round_double (q : ℚ) : Option ℚ :=
  if |round_value q| < 2 ^ 1024 then some (round_value q) else none

/-- The product `a * b` of two `double` values. -/
def double_mul (a b : ℚ) : Option ℚ := round_double (a * b)

namespace WavFile

/-- The default constructor `WavFile()`. -/
def init : WavFile :=
  { fout_ := ofstream.init, sample_rate_ := 0, bit_depth_ := .WAV_16BIT,
    channels_ := .WAV_MONO, data_size_ := 0 }

/-- The member `open( file, bit_depth, channels, sample_rate )`. -/
def «open» (w : WavFile) (ok : Bool) (bit_depth : bit_depth_t) (channels : channels_t)
    (sample_rate : Nat) : WavFile :=
  { w with
    fout_ := (w.fout_.open ok).seekp header_size_
    bit_depth_ := bit_depth
    channels_ := channels
    sample_rate_ := sample_rate }

/-- The array `wav_header` of `close` after the seven `memcpy` calls. -/
def wav_header (w : WavFile) : List Nat :=
  let data_plus_header := u32 (w.data_size_ + header_size_)
  let channels := u16 w.channels_.val
  let byte_rate := u32 (u32 (w.sample_rate_ * channels) * w.bit_depth_.val)
  let block_align := u16 (u32 (channels * w.bit_depth_.val))
  let bits_per_sample := u16 (u32 (w.bit_depth_.val * 8))
  let h := wav_header_init
  let h := memcpy h 4 (le_bytes 4 data_plus_header)
  let h := memcpy h 22 (le_bytes 2 channels)
  let h := memcpy h 24 (le_bytes 4 w.sample_rate_)
  let h := memcpy h 28 (le_bytes 4 byte_rate)
  let h := memcpy h 32 (le_bytes 2 block_align)
  let h := memcpy h 34 (le_bytes 2 bits_per_sample)
  memcpy h 40 (le_bytes 4 w.data_size_)

/-- The member `close()`. -/
def close (w : WavFile) : WavFile :=
  if w.fout_.fail then w
  else { w with fout_ := ((w.fout_.seekp 0).write (wav_header w)).close }

/-- The member `get_bit_depth()`. -/
def get_bit_depth (w : WavFile) : bit_depth_t := w.bit_depth_

/-- The member `get_channels()`. -/
def get_channels (w : WavFile) : channels_t := w.channels_

/-- The member `get_sample_rate()`. -/
def get_sample_rate (w : WavFile) : Nat := w.sample_rate_

/-- The member `set_bit_depth( bit_depth )`. -/
def set_bit_depth (w : WavFile) (bit_depth : bit_depth_t) : WavFile :=
  { w with bit_depth_ := bit_depth }

/-- The member `set_channels( channels )`. -/
def set_channels (w : WavFile) (channels : channels_t) : WavFile :=
  { w with channels_ := channels }

/-- The member `set_sample_rate( sample_rate )`. -/
def set_sample_rate (w : WavFile) (sample_rate : Nat) : WavFile :=
  { w with sample_rate_ := sample_rate }

/-- The member `write_mono_16bit( std::int16_t sample )`. -/
def write_mono_16bit (w : WavFile) (sample : Int) : WavFile :=
  { w with
    fout_ := w.fout_.write (int16_bytes sample)
    data_size_ := u32 (w.data_size_ + 2) }

/-- The member `write_stereo_16bit( std::int16_t, std::int16_t )`. -/
def write_stereo_16bit (w : WavFile) (sample_left sample_right : Int) : WavFile :=
  (w.write_mono_16bit sample_left).write_mono_16bit sample_right

/-- The member `write_mono_16bit( double sample )`. -/
def write_mono_16bit_double (w : WavFile) (sample : ℚ) : Option WavFile :=
  ((double_mul 0x7fff sample).bind (static_cast_int (-32768) 32767)).map fun data =>
    w.write_mono_16bit data

/-- The member `write_stereo_16bit( double, double )`. -/
def write_stereo_16bit_double (w : WavFile) (sample_left sample_right : ℚ) :
    Option WavFile :=
  (w.write_mono_16bit_double sample_left).bind fun w1 =>
    w1.write_mono_16bit_double sample_right

/-- The member `write_mono_24bit( std::int32_t sample )`. -/
def write_mono_24bit (w : WavFile) (sample : Int) : WavFile :=
  { w with
    fout_ := w.fout_.write ((int32_bytes sample).take 3)
    data_size_ := u32 (w.data_size_ + 3) }

/-- The member `write_stereo_24bit( std::int32_t, std::int32_t )`. -/
def write_stereo_24bit (w : WavFile) (sample_left sample_right : Int) : WavFile :=
  (w.write_mono_24bit sample_left).write_mono_24bit sample_right

/-- The member `write_mono_24bit( double sample )`. -/
def write_mono_24bit_double (w : WavFile) (sample : ℚ) : Option WavFile :=
  ((double_mul 0x7fffff sample).bind (static_cast_int (-2147483648) 2147483647)).map
    fun data => w.write_mono_24bit data

/-- The member `write_stereo_24bit( double, double )`. -/
def write_stereo_24bit_double (w : WavFile) (sample_left sample_right : ℚ) :
    Option WavFile :=
  (w.write_mono_24bit_double sample_left).bind fun w1 =>
    w1.write_mono_24bit_double sample_right

/-- The conversion `operator bool ()`: `true` unless the stream has failed. -/
def to_bool (w : WavFile) : Bool := !w.fout_.fail

end WavFile

/-! ## Auxiliary notions used in the statements -/

/-- Rounding toward zero, in the words of the specification ("truncating toward zero"). -/
def trunc_toward_zero (q : ℚ) : Int := if 0 ≤ q then ⌊q⌋ else ⌈q⌉

/-- The `double` nearest to `q`, ties to even (0 when the rounding overflows). -/
def fl (q : ℚ) : ℚ := (round_double q).getD 0

/-- The `double` 0x1.0002000400080p-15, just below 1/32767. -/
def double_below_inv_32767 : ℚ := 35185445863425 / 1152921504606846976

/-- The stream of a writer whose header space is reserved and whose payload so far is `p`:
the put position is `44 + p.length`, and the file is still empty (nothing written yet) or
consists of 44 zero bytes followed by `p`. -/
def streaming (s : ofstream) (p : List Nat) : Prop :=
  s.is_open = true ∧ s.fail = false ∧ s.pos = 44 + p.length ∧
    ((s.file = [] ∧ p = []) ∨ s.file = List.replicate 44 0 ++ p)

/-- The argument of one mono write: an integer sample or a floating-point sample. -/
inductive sample_t where
  | int (v : Int)
  | real (x : ℚ)

/-- A floating-point sample is normalised when it lies in `[-1, 1]`. -/
def sample_t.normalised : sample_t → Prop
  | .int _ => True
  | .real x => -1 ≤ x ∧ x ≤ 1

/-- One mono write of the given depth: the matching overload of `write_mono_16bit` or
`write_mono_24bit`. -/
def write_mono (b : bit_depth_t) (w : WavFile) : sample_t → Option WavFile
  | .int v =>
    match b with
    | .WAV_16BIT => some (w.write_mono_16bit v)
    | .WAV_24BIT => some (w.write_mono_24bit v)
  | .real x =>
    match b with
    | .WAV_16BIT => w.write_mono_16bit_double x
    | .WAV_24BIT => w.write_mono_24bit_double x

/-- A sequence of mono writes, in order. -/
def write_mono_seq (b : bit_depth_t) : WavFile → List sample_t → Option WavFile
  | w, [] => some w
  | w, s :: ss => (write_mono b w s).bind fun w1 => write_mono_seq b w1 ss

/-- The bytes one mono write of the given depth contributes to the payload. -/
def sample_bytes (b : bit_depth_t) : sample_t → List Nat
  | .int v =>
    match b with
    | .WAV_16BIT => int16_bytes v
    | .WAV_24BIT => (int32_bytes v).take 3
  | .real x =>
    match b with
    | .WAV_16BIT => int16_bytes (trunc_toward_zero (fl (0x7fff * x)))
    | .WAV_24BIT => (int32_bytes (trunc_toward_zero (fl (0x7fffff * x)))).take 3

/-- The payload of a sequence of mono writes: the bytes of the samples in call order. -/
def payload_of (b : bit_depth_t) : List sample_t → List Nat
  | [] => []
  | s :: ss => sample_bytes b s ++ payload_of b ss

/-- Reading a byte string as a little-endian signed 16-bit integer. -/
def read_int16_le (bs : List Nat) : Int :=
  if le_value bs < 32768 then (le_value bs : Int) else (le_value bs : Int) - 65536

/-- Reading three bytes as a little-endian 24-bit integer, sign-extended. -/
def read_int24_le (bs : List Nat) : Int :=
  if le_value bs < 8388608 then (le_value bs : Int) else (le_value bs : Int) - 16777216

/-- One call of a sample writer: any of the eight `write_*` members with its arguments. -/
inductive write_call where
  | mono_16bit (sample : Int)
  | stereo_16bit (sample_left sample_right : Int)
  | mono_16bit_double (sample : ℚ)
  | stereo_16bit_double (sample_left sample_right : ℚ)
  | mono_24bit (sample : Int)
  | stereo_24bit (sample_left sample_right : Int)
  | mono_24bit_double (sample : ℚ)
  | stereo_24bit_double (sample_left sample_right : ℚ)

/-- The floating-point arguments of a call lie in `[-1, 1]`. -/
def write_call.normalised : write_call → Prop
  | .mono_16bit_double x => -1 ≤ x ∧ x ≤ 1
  | .stereo_16bit_double x y => (-1 ≤ x ∧ x ≤ 1) ∧ (-1 ≤ y ∧ y ≤ 1)
  | .mono_24bit_double x => -1 ≤ x ∧ x ≤ 1
  | .stereo_24bit_double x y => (-1 ≤ x ∧ x ≤ 1) ∧ (-1 ≤ y ∧ y ≤ 1)
  | _ => True

/-- Performing one call on a writer. -/
def write_call.run (w : WavFile) : write_call → Option WavFile
  | .mono_16bit s => some (w.write_mono_16bit s)
  | .stereo_16bit l r => some (w.write_stereo_16bit l r)
  | .mono_16bit_double x => w.write_mono_16bit_double x
  | .stereo_16bit_double x y => w.write_stereo_16bit_double x y
  | .mono_24bit s => some (w.write_mono_24bit s)
  | .stereo_24bit l r => some (w.write_stereo_24bit l r)
  | .mono_24bit_double x => w.write_mono_24bit_double x
  | .stereo_24bit_double x y => w.write_stereo_24bit_double x y

/-- Performing a sequence of calls, in order. -/
def run_calls : WavFile → List write_call → Option WavFile
  | w, [] => some w
  | w, c :: cs => (c.run w).bind fun w1 => run_calls w1 cs

/-- The integer samples a call serialises, each with its depth, in the order written;
a floating-point argument is converted by truncating its rounded `double` product. -/
def write_call.samples : write_call → List (bit_depth_t × Int)
  | .mono_16bit s => [(.WAV_16BIT, s)]
  | .stereo_16bit l r => [(.WAV_16BIT, l), (.WAV_16BIT, r)]
  | .mono_16bit_double x => [(.WAV_16BIT, trunc_toward_zero (fl (0x7fff * x)))]
  | .stereo_16bit_double x y =>
    [(.WAV_16BIT, trunc_toward_zero (fl (0x7fff * x))),
     (.WAV_16BIT, trunc_toward_zero (fl (0x7fff * y)))]
  | .mono_24bit s => [(.WAV_24BIT, s)]
  | .stereo_24bit l r => [(.WAV_24BIT, l), (.WAV_24BIT, r)]
  | .mono_24bit_double x => [(.WAV_24BIT, trunc_toward_zero (fl (0x7fffff * x)))]
  | .stereo_24bit_double x y =>
    [(.WAV_24BIT, trunc_toward_zero (fl (0x7fffff * x))),
     (.WAV_24BIT, trunc_toward_zero (fl (0x7fffff * y)))]

/-- The serialised form of a list of integer samples: two bytes for a 16-bit sample, the
three low bytes for a 24-bit sample, least significant byte first. -/
def samples_bytes : List (bit_depth_t × Int) → List Nat
  | [] => []
  | s :: ss => sample_bytes s.1 (.int s.2) ++ samples_bytes ss

/-- The bytes one call contributes to the payload. -/
def write_call.bytes (c : write_call) : List Nat := samples_bytes c.samples

/-- The payload of a sequence of calls: the serialised samples in call order. -/
def calls_bytes : List write_call → List Nat
  | [] => []
  | c :: cs => c.bytes ++ calls_bytes cs

/-- One integer mono write of the given depth. -/
def write_int (w : WavFile) (s : bit_depth_t × Int) : WavFile :=
  match s.1 with
  | .WAV_16BIT => w.write_mono_16bit s.2
  | .WAV_24BIT => w.write_mono_24bit s.2

/-! ## Byte strings -/

theorem le_bytes_length (n v : Nat) : (le_bytes n v).length = n := by
  induction n generalizing v with
  | zero => rfl
  | succ n ih => simp [le_bytes, ih]

theorem le_value_le_bytes (n v : Nat) : le_value (le_bytes n v) = v % 256 ^ n := by
  induction n generalizing v with
  | zero => simp [le_bytes, le_value, Nat.mod_one]
  | succ n ih =>
    simp only [le_bytes, le_value, ih]
    rw [pow_succ, Nat.mul_comm (256 ^ n) 256, Nat.mod_mul]

theorem le_value_le_bytes_of_lt (n v : Nat) (h : v < 256 ^ n) :
    le_value (le_bytes n v) = v := by
  rw [le_value_le_bytes, Nat.mod_eq_of_lt h]

theorem slice_append_left (a b : List Nat) (off n : Nat) (h : off + n ≤ a.length) :
    slice (a ++ b) off n = slice a off n := by
  unfold slice
  rw [List.drop_append_of_le_length (by omega), List.take_append_of_le_length]
  simp only [List.length_drop]
  omega

/-! ## The header written by `close` -/

/-- The header array, field by field. -/
theorem wav_header_eq (w : WavFile) :
    WavFile.wav_header w =
      [82, 73, 70, 70] ++ le_bytes 4 (u32 (w.data_size_ + header_size_))
        ++ [87, 65, 86, 69] ++ [102, 109, 116, 32] ++ [16, 0, 0, 0] ++ [1, 0]
        ++ le_bytes 2 (u16 w.channels_.val)
        ++ le_bytes 4 w.sample_rate_
        ++ le_bytes 4 (u32 (u32 (w.sample_rate_ * u16 w.channels_.val) * w.bit_depth_.val))
        ++ le_bytes 2 (u16 (u32 (u16 w.channels_.val * w.bit_depth_.val)))
        ++ le_bytes 2 (u16 (u32 (w.bit_depth_.val * 8)))
        ++ [100, 97, 116, 97] ++ le_bytes 4 w.data_size_ := by
  simp only [WavFile.wav_header, memcpy, le_bytes, wav_header_init, List.length_cons,
    List.length_nil, List.take_succ_cons, List.take_zero, Nat.reduceAdd, List.drop_succ_cons,
    List.drop_zero, List.cons_append, List.nil_append, List.append_nil]

theorem wav_header_length (w : WavFile) : (WavFile.wav_header w).length = 44 := by
  simp [wav_header_eq, le_bytes_length]

theorem close_file (w : WavFile) (hopen : w.fout_.is_open = true)
    (hgood : w.fout_.fail = false) :
    w.close.fout_.file = WavFile.wav_header w ++ w.fout_.file.drop 44 := by
  simp [WavFile.close, ofstream.seekp, ofstream.write, ofstream.close, hopen, hgood,
    write_at, wav_header_length]

theorem close_slice (w : WavFile) (hopen : w.fout_.is_open = true)
    (hgood : w.fout_.fail = false) (off n : Nat) (h : off + n ≤ 44) :
    slice w.close.fout_.file off n = slice (WavFile.wav_header w) off n := by
  rw [close_file w hopen hgood, slice_append_left _ _ _ _ (by rw [wav_header_length]; exact h)]

theorem wav_header_slices (w : WavFile) :
    slice (WavFile.wav_header w) 0 4 = [82, 73, 70, 70]
    ∧ slice (WavFile.wav_header w) 4 4 = le_bytes 4 (u32 (w.data_size_ + header_size_))
    ∧ slice (WavFile.wav_header w) 8 4 = [87, 65, 86, 69]
    ∧ slice (WavFile.wav_header w) 12 4 = [102, 109, 116, 32]
    ∧ slice (WavFile.wav_header w) 16 4 = [16, 0, 0, 0]
    ∧ slice (WavFile.wav_header w) 20 2 = [1, 0]
    ∧ slice (WavFile.wav_header w) 22 2 = le_bytes 2 (u16 w.channels_.val)
    ∧ slice (WavFile.wav_header w) 24 4 = le_bytes 4 w.sample_rate_
    ∧ slice (WavFile.wav_header w) 28 4
        = le_bytes 4 (u32 (u32 (w.sample_rate_ * u16 w.channels_.val) * w.bit_depth_.val))
    ∧ slice (WavFile.wav_header w) 32 2
        = le_bytes 2 (u16 (u32 (u16 w.channels_.val * w.bit_depth_.val)))
    ∧ slice (WavFile.wav_header w) 34 2 = le_bytes 2 (u16 (u32 (w.bit_depth_.val * 8)))
    ∧ slice (WavFile.wav_header w) 36 4 = [100, 97, 116, 97]
    ∧ slice (WavFile.wav_header w) 40 4 = le_bytes 4 w.data_size_ := by
  rw [wav_header_eq]
  simp only [slice, le_bytes, List.cons_append, List.nil_append, List.append_nil,
    List.drop_succ_cons, List.drop_zero, List.take_succ_cons, List.take_zero, and_self]

/-! ## The payload region -/

theorem streaming_open (s : ofstream) (h : s.is_open = false) :
    streaming ((s.open true).seekp header_size_) [] := by
  simp [streaming, ofstream.open, ofstream.seekp, h, header_size_]

theorem write_at_past_end (file bs : List Nat) (pos : Nat) (h : file.length ≤ pos) :
    write_at file pos bs = file ++ List.replicate (pos - file.length) 0 ++ bs := by
  unfold write_at
  rw [List.take_of_length_le h, List.drop_of_length_le (by omega), List.append_nil]

theorem streaming_write (s : ofstream) (p bs : List Nat) (h : streaming s p) :
    streaming (s.write bs) (p ++ bs) := by
  obtain ⟨ho, hf, hp, hfile⟩ := h
  refine ⟨by simp [ofstream.write, ho, hf], by simp [ofstream.write, ho, hf],
    by simp [ofstream.write, ho, hf, hp]; omega, Or.inr ?_⟩
  rcases hfile with ⟨h0, hp0⟩ | h1
  · subst hp0
    simp [ofstream.write, ho, hf, hp, h0, write_at]
  · have hl : s.file.length = s.pos := by
      rw [h1, List.length_append, List.length_replicate, hp]
    simp only [ofstream.write, ho, hf, Bool.false_eq_true, if_false, if_true]
    rw [write_at_past_end _ _ _ (by omega), ← hl, Nat.sub_self, h1]
    simp

theorem streaming_drop (s : ofstream) (p : List Nat) (h : streaming s p) :
    s.file.drop 44 = p := by
  obtain ⟨_, _, _, hfile⟩ := h
  rcases hfile with ⟨h0, hp0⟩ | h1
  · simp [h0, hp0]
  · simp [h1]

theorem streaming_close (w : WavFile) (p : List Nat) (h : streaming w.fout_ p) :
    w.close.fout_.file = WavFile.wav_header w ++ p := by
  rw [close_file w h.1 h.2.1, streaming_drop _ _ h]

/-! ## Conversion of floating-point samples -/

theorem tdiv_num_den (q : ℚ) : Int.tdiv q.num q.den = trunc_toward_zero q := by
  unfold trunc_toward_zero
  split
  · next h =>
    rw [Int.tdiv_eq_ediv (Rat.num_nonneg.mpr h) (by positivity), Rat.floor_def]
  · next h =>
    have hn : q.num < 0 := Rat.num_neg.mpr (not_le.mp h)
    have hc : ⌈q⌉ = -⌊-q⌋ := by rw [Int.floor_neg, neg_neg]
    rw [hc, Rat.floor_def, Rat.neg_num, Rat.neg_den, ← Int.tdiv_eq_ediv (by omega) (by positivity),
      Int.neg_tdiv, neg_neg]

theorem trunc_toward_zero_bounds (a b : Int) (q : ℚ) (ha : a ≤ 0) (hb : 0 ≤ b)
    (h1 : (a : ℚ) ≤ q) (h2 : q ≤ (b : ℚ)) :
    a ≤ trunc_toward_zero q ∧ trunc_toward_zero q ≤ b := by
  unfold trunc_toward_zero
  split
  · next h =>
    refine ⟨le_trans ha (Int.floor_nonneg.mpr h), ?_⟩
    have : ((⌊q⌋ : Int) : ℚ) ≤ (b : ℚ) := le_trans (Int.floor_le q) h2
    exact_mod_cast this
  · next h =>
    refine ⟨?_, le_trans (Int.ceil_le.mpr (by exact_mod_cast (le_of_lt (not_le.mp h)))) hb⟩
    have : (a : ℚ) ≤ ((⌈q⌉ : Int) : ℚ) := le_trans h1 (Int.le_ceil q)
    exact_mod_cast this

theorem static_cast_int_eq (lo hi a b : Int) (q : ℚ) (hlo : lo ≤ a) (hhi : b ≤ hi)
    (ha : a ≤ 0) (hb : 0 ≤ b) (h1 : (a : ℚ) ≤ q) (h2 : q ≤ (b : ℚ)) :
    static_cast_int lo hi q = some (trunc_toward_zero q) := by
  have hbd := trunc_toward_zero_bounds a b q ha hb h1 h2
  unfold static_cast_int
  simp only [tdiv_num_den]
  rw [if_pos ⟨le_trans hlo hbd.1, le_trans hbd.2 hhi⟩]

theorem round_half_even_le (r : ℚ) (m : Int) (h : r ≤ m) : round_half_even r ≤ m := by
  have hf : ⌊r⌋ ≤ m := by
    have := Int.floor_le r
    exact_mod_cast (le_trans this h)
  unfold round_half_even
  have hlt : 1 / 2 ≤ r - ⌊r⌋ → ⌊r⌋ + 1 ≤ m := by
    intro hd
    have h1 : ((⌊r⌋ : Int) : ℚ) < m := by linarith
    have h2 : ⌊r⌋ < m := by exact_mod_cast h1
    omega
  split
  · exact hf
  · next h1 =>
    have hd := not_lt.mp h1
    split
    · exact hlt hd
    · split
      · exact hf
      · exact hlt hd

theorem le_round_half_even (r : ℚ) (m : Int) (h : (m : ℚ) ≤ r) : m ≤ round_half_even r := by
  have hf : m ≤ ⌊r⌋ := Int.le_floor.mpr h
  unfold round_half_even
  split
  · exact hf
  · split
    · omega
    · split <;> omega

theorem round_half_even_intCast (n : Int) : round_half_even (n : ℚ) = n :=
  le_antisymm (round_half_even_le _ _ le_rfl) (le_round_half_even _ _ le_rfl)

theorem round_half_even_near (r : ℚ) (m : Int) (h1 : (m : ℚ) - 1 / 2 < r)
    (h2 : r < (m : ℚ) + 1 / 2) : round_half_even r = m := by
  unfold round_half_even
  rcases lt_or_le r (m : ℚ) with hlt | hge
  · have hf : ⌊r⌋ = m - 1 := by
      rw [Int.floor_eq_iff]
      push_cast
      constructor <;> linarith
    rw [hf]
    push_cast
    rw [if_neg (by linarith), if_pos (by linarith)]
    omega
  · have hf : ⌊r⌋ = m := by
      rw [Int.floor_eq_iff]
      constructor <;> linarith
    rw [hf, if_pos (by linarith)]

theorem log2_eq (r : ℚ) (z : Int) (h1 : (2 : ℚ) ^ z ≤ r) (h2 : r < (2 : ℚ) ^ (z + 1)) :
    Int.log 2 r = z := by
  have hr : 0 < r := lt_of_lt_of_le (by positivity) h1
  have a := (Int.zpow_le_iff_le_log (by decide : 1 < 2) (x := z) hr).mp (by exact_mod_cast h1)
  have b := (Int.lt_zpow_iff_log_lt (by decide : 1 < 2) (x := z + 1) hr).mp
    (by exact_mod_cast h2)
  omega

theorem ulp_exponent_eq (q : ℚ) (z : Int) (h1 : (2 : ℚ) ^ z ≤ |q|)
    (h2 : |q| < (2 : ℚ) ^ (z + 1)) : ulp_exponent q = max (z - 52) (-1074) := by
  unfold ulp_exponent
  rw [log2_eq _ z h1 h2]

theorem ulp_exponent_nonpos (q : ℚ) (h : |q| < 2 ^ 53) : ulp_exponent q ≤ 0 := by
  unfold ulp_exponent
  have hl : Int.log 2 |q| ≤ 52 := by
    rcases eq_or_lt_of_le (abs_nonneg q) with h0 | hpos
    · rw [← h0, Int.log_zero_right]; decide
    · have := (Int.lt_zpow_iff_log_lt (by decide : 1 < 2) (x := 53) hpos).mp
        (by exact_mod_cast h)
      omega
  omega

/-- Rounding never crosses an integer when the unit in the last place is at most 1. -/
theorem round_value_between (q : ℚ) (a b : Int) (he : ulp_exponent q ≤ 0) (ha : (a : ℚ) ≤ q)
    (hb : q ≤ (b : ℚ)) : (a : ℚ) ≤ round_value q ∧ round_value q ≤ (b : ℚ) := by
  obtain ⟨n, hn⟩ : ∃ n : Nat, ulp_exponent q = -(n : Int) :=
    ⟨(-ulp_exponent q).toNat, by omega⟩
  have hP : (2 : ℚ) ^ ulp_exponent q = ((2 : ℚ) ^ n)⁻¹ := by
    rw [hn, zpow_neg, zpow_natCast]
  have hpos : (0 : ℚ) < 2 ^ n := by positivity
  have hup : round_half_even (q * 2 ^ n) ≤ b * 2 ^ n :=
    round_half_even_le _ _ (by
      push_cast
      exact mul_le_mul_of_nonneg_right hb hpos.le)
  have hlo : a * 2 ^ n ≤ round_half_even (q * 2 ^ n) :=
    le_round_half_even _ _ (by
      push_cast
      exact mul_le_mul_of_nonneg_right ha hpos.le)
  have hup1 : ((round_half_even (q * 2 ^ n) : Int) : ℚ) ≤ b * 2 ^ n := by exact_mod_cast hup
  have hlo1 : (a : ℚ) * 2 ^ n ≤ ((round_half_even (q * 2 ^ n) : Int) : ℚ) := by
    exact_mod_cast hlo
  unfold round_value
  simp only [hP, div_inv_eq_mul]
  rw [← div_eq_mul_inv, le_div_iff₀ hpos, div_le_iff₀ hpos]
  exact ⟨hlo1, hup1⟩

/-- A value between two integers and below 2^53 in magnitude rounds to a `double` between
the same integers. -/
theorem round_double_between (q : ℚ) (a b : Int) (hq : |q| < 2 ^ 53) (ha : (a : ℚ) ≤ q)
    (hb : q ≤ (b : ℚ)) :
    round_double q = some (fl q) ∧ (a : ℚ) ≤ fl q ∧ fl q ≤ (b : ℚ) := by
  have he := ulp_exponent_nonpos q hq
  obtain ⟨h1, h2⟩ := round_value_between q a b he ha hb
  obtain ⟨h3, h4⟩ := round_value_between q (-9007199254740992) 9007199254740992 he
    (by have := (abs_lt.mp hq).1; push_cast; linarith)
    (by have := (abs_lt.mp hq).2; push_cast; linarith)
  have hlt : |round_value q| < 2 ^ 1024 := by
    rw [abs_lt]
    push_cast at h3 h4
    constructor
    · calc -(2 : ℚ) ^ 1024 < -9007199254740992 := by norm_num
        _ ≤ round_value q := h3
    · calc round_value q ≤ 9007199254740992 := h4
        _ < 2 ^ 1024 := by norm_num
  have hr : round_double q = some (round_value q) := by
    unfold round_double
    rw [if_pos hlt]
  have hfl : fl q = round_value q := by
    unfold fl
    rw [hr]
    rfl
  rw [hfl]
  exact ⟨hr, h1, h2⟩

/-- An integer below 2^53 in magnitude is a `double`. -/
theorem fl_intCast (k : Int) (hk : |(k : ℚ)| < 2 ^ 53) : fl (k : ℚ) = k := by
  obtain ⟨-, h1, h2⟩ := round_double_between (k : ℚ) k k hk le_rfl le_rfl
  exact le_antisymm h2 h1

/-- A value that is an integer multiple of its unit in the last place and is below 2^1024
in magnitude is a `double`: rounding returns it. -/
theorem round_double_exact (q : ℚ) (n : Int) (hn : q = n * 2 ^ ulp_exponent q)
    (hb : |q| < 2 ^ 1024) : round_double q = some q := by
  have hpos : (0 : ℚ) < 2 ^ ulp_exponent q := by positivity
  have hr : q / 2 ^ ulp_exponent q = n := by
    rw [div_eq_iff hpos.ne']
    exact hn
  have hv : round_value q = q := by
    unfold round_value
    rw [hr, round_half_even_intCast, ← hn]
  unfold round_double
  rw [hv, if_pos hb]

theorem fl_of_round_double (q v : ℚ) (h : round_double q = some v) : fl q = v := by
  unfold fl
  rw [h]
  rfl

/-- The conversion of the `double` product `k * x` for `x` in [-1, 1], `k` a natural number
below 2^53 and a destination type that holds `[-k, k]`: the product does not overflow, the
conversion is defined and yields the truncated rounded product, which lies in `[-k, k]`;
the rounded product lies between the floor and the ceiling of the exact product. -/
theorem convert_normalised (k : ℚ) (K : Nat) (lo hi : Int) (hk : k = K) (hK : K < 2 ^ 53)
    (hlo : lo ≤ -(K : Int)) (hhi : (K : Int) ≤ hi) (x : ℚ) (h1 : -1 ≤ x) (h2 : x ≤ 1) :
    (double_mul k x).bind (static_cast_int lo hi) = some (trunc_toward_zero (fl (k * x)))
    ∧ -(K : Int) ≤ trunc_toward_zero (fl (k * x))
    ∧ trunc_toward_zero (fl (k * x)) ≤ (K : Int)
    ∧ ((⌊k * x⌋ : Int) : ℚ) ≤ fl (k * x)
    ∧ fl (k * x) ≤ ((⌈k * x⌉ : Int) : ℚ) := by
  have hK0 : (0 : ℚ) ≤ K := Nat.cast_nonneg K
  have hKq : (K : ℚ) < 2 ^ 53 := by exact_mod_cast hK
  have hup : k * x ≤ K := by rw [hk]; nlinarith
  have hdn : -(K : ℚ) ≤ k * x := by rw [hk]; nlinarith
  have hq : |k * x| < 2 ^ 53 := lt_of_le_of_lt (abs_le.mpr ⟨hdn, hup⟩) hKq
  obtain ⟨hr, a1, a2⟩ := round_double_between (k * x) (-(K : Int)) (K : Int) hq
    (by push_cast; exact hdn) (by push_cast; exact hup)
  obtain ⟨-, f1, f2⟩ := round_double_between (k * x) ⌊k * x⌋ ⌈k * x⌉ hq (Int.floor_le _)
    (Int.le_ceil _)
  obtain ⟨t1, t2⟩ := trunc_toward_zero_bounds (-(K : Int)) (K : Int) (fl (k * x))
    (by omega) (by omega) a1 a2
  refine ⟨?_, t1, t2, f1, f2⟩
  unfold double_mul
  rw [hr, Option.some_bind]
  exact static_cast_int_eq lo hi (-(K : Int)) (K : Int) _ hlo hhi (by omega) (by omega) a1 a2

theorem convert16_normalised (x : ℚ) (h1 : -1 ≤ x) (h2 : x ≤ 1) :
    (double_mul 0x7fff x).bind (static_cast_int (-32768) 32767)
      = some (trunc_toward_zero (fl (0x7fff * x))) :=
  (convert_normalised 0x7fff 32767 _ _ (by norm_num) (by norm_num) (by decide) (by decide)
    x h1 h2).1

theorem convert24_normalised (x : ℚ) (h1 : -1 ≤ x) (h2 : x ≤ 1) :
    (double_mul 0x7fffff x).bind (static_cast_int (-2147483648) 2147483647)
      = some (trunc_toward_zero (fl (0x7fffff * x))) :=
  (convert_normalised 0x7fffff 8388607 _ _ (by norm_num) (by norm_num) (by decide)
    (by decide) x h1 h2).1

theorem double_below_inv_32767_exact :
    round_double double_below_inv_32767 = some double_below_inv_32767 := by
  have he : ulp_exponent double_below_inv_32767 = -67 := by
    rw [ulp_exponent_eq _ (-15) (by norm_num [double_below_inv_32767, abs_of_pos])
      (by norm_num [double_below_inv_32767, abs_of_pos])]
    decide
  refine round_double_exact _ 4503737070518400 ?_ ?_
  · rw [he]; norm_num [double_below_inv_32767]
  · norm_num [double_below_inv_32767, abs_of_pos]

theorem product_rounds_to_one : round_double (0x7fff * double_below_inv_32767) = some 1 := by
  have hq : (0x7fff : ℚ) * double_below_inv_32767
      = 1152921504606846975 / 1152921504606846976 := by
    norm_num [double_below_inv_32767]
  rw [hq]
  have he : ulp_exponent (1152921504606846975 / 1152921504606846976) = -53 := by
    rw [ulp_exponent_eq _ (-1) (by norm_num [abs_of_pos]) (by norm_num [abs_of_pos])]
    decide
  have hv : round_value (1152921504606846975 / 1152921504606846976) = 1 := by
    unfold round_value
    rw [he, round_half_even_near _ 9007199254740992 (by norm_num) (by norm_num)]
    norm_num
  unfold round_double
  rw [hv, if_pos (by norm_num)]

theorem trunc_exact_product_below_one :
    trunc_toward_zero (0x7fff * double_below_inv_32767) = 0 := by
  unfold trunc_toward_zero
  rw [if_pos (by norm_num [double_below_inv_32767]), Int.floor_eq_iff]
  constructor <;> norm_num [double_below_inv_32767]

theorem fl_product_below_one : fl (0x7fff * double_below_inv_32767) = 1 :=
  fl_of_round_double _ _ product_rounds_to_one

theorem fl_minus_half_product : fl (0x7fff * (-1 / 2)) = -32767 / 2 := by
  have hq : (0x7fff : ℚ) * (-1 / 2) = -32767 / 2 := by norm_num
  rw [hq]
  have he : ulp_exponent (-32767 / 2) = -39 := by
    rw [ulp_exponent_eq _ 13 (by norm_num [abs_of_neg]) (by norm_num [abs_of_neg])]
    decide
  refine fl_of_round_double _ _ (round_double_exact _ (-9006924376834048) ?_ ?_)
  · rw [he]; norm_num
  · norm_num [abs_of_neg]

theorem trunc_minus_half_product : trunc_toward_zero (fl (0x7fff * (-1 / 2))) = -16383 := by
  rw [fl_minus_half_product]
  unfold trunc_toward_zero
  rw [if_neg (by norm_num), Int.ceil_eq_iff]
  constructor <;> norm_num

theorem write_mono_16bit_double_eq (w : WavFile) (x : ℚ) (h1 : -1 ≤ x) (h2 : x ≤ 1) :
    w.write_mono_16bit_double x
      = some (w.write_mono_16bit (trunc_toward_zero (fl (0x7fff * x)))) := by
  unfold WavFile.write_mono_16bit_double
  rw [convert16_normalised x h1 h2, Option.map_some']

theorem write_mono_24bit_double_eq (w : WavFile) (x : ℚ) (h1 : -1 ≤ x) (h2 : x ≤ 1) :
    w.write_mono_24bit_double x
      = some (w.write_mono_24bit (trunc_toward_zero (fl (0x7fffff * x)))) := by
  unfold WavFile.write_mono_24bit_double
  rw [convert24_normalised x h1 h2, Option.map_some']

theorem write_stereo_16bit_double_eq (w : WavFile) (x y : ℚ) (hx1 : -1 ≤ x) (hx2 : x ≤ 1)
    (hy1 : -1 ≤ y) (hy2 : y ≤ 1) :
    w.write_stereo_16bit_double x y
      = some (w.write_stereo_16bit (trunc_toward_zero (fl (0x7fff * x)))
          (trunc_toward_zero (fl (0x7fff * y)))) := by
  unfold WavFile.write_stereo_16bit_double
  rw [write_mono_16bit_double_eq w x hx1 hx2, Option.some_bind,
    write_mono_16bit_double_eq _ y hy1 hy2]
  rfl

theorem write_stereo_24bit_double_eq (w : WavFile) (x y : ℚ) (hx1 : -1 ≤ x) (hx2 : x ≤ 1)
    (hy1 : -1 ≤ y) (hy2 : y ≤ 1) :
    w.write_stereo_24bit_double x y
      = some (w.write_stereo_24bit (trunc_toward_zero (fl (0x7fffff * x)))
          (trunc_toward_zero (fl (0x7fffff * y)))) := by
  unfold WavFile.write_stereo_24bit_double
  rw [write_mono_24bit_double_eq w x hx1 hx2, Option.some_bind,
    write_mono_24bit_double_eq _ y hy1 hy2]
  rfl

/-! ## The header fields -/

/-- The chunk size field written by `close` is the payload counter plus the whole header
size, reduced to 32 bits. -/
theorem close_chunk_size (w : WavFile) (hopen : w.fout_.is_open = true)
    (hgood : w.fout_.fail = false) :
    slice w.close.fout_.file 4 4 = le_bytes 4 (u32 (w.data_size_ + 44)) := by
  rw [close_slice w hopen hgood 4 4 (by decide)]
  exact (wav_header_slices w).2.1

/-- C1 (the code at the failing inputs): a fresh writer that is opened and closed at once has
payload counter 0 and chunk size field 44, not 36; after one 16-bit sample the counter is 2
and the field is 46, not 38. -/
theorem chunk_size_field_is_payload_plus_44 :
    (WavFile.init.open true .WAV_16BIT .WAV_MONO 44100).data_size_ = 0
    ∧ slice (WavFile.init.open true .WAV_16BIT .WAV_MONO 44100).close.fout_.file 4 4
        = [44, 0, 0, 0]
    ∧ le_value (slice (WavFile.init.open true .WAV_16BIT .WAV_MONO 44100).close.fout_.file 4 4)
        ≠ 36 + 0
    ∧ ((WavFile.init.open true .WAV_16BIT .WAV_MONO 44100).write_mono_16bit 0).data_size_ = 2
    ∧ slice ((WavFile.init.open true .WAV_16BIT .WAV_MONO 44100).write_mono_16bit
        0).close.fout_.file 4 4 = [46, 0, 0, 0]
    ∧ le_value (slice ((WavFile.init.open true .WAV_16BIT .WAV_MONO 44100).write_mono_16bit
        0).close.fout_.file 4 4) ≠ 36 + 2 := by
  decide

/-! ## Sequences of mono writes -/

theorem sample_bytes_length (b : bit_depth_t) (s : sample_t) :
    (sample_bytes b s).length = b.val := by
  cases b <;> cases s <;>
    simp [sample_bytes, int16_bytes, int32_bytes, le_bytes_length, bit_depth_t.val]

theorem payload_of_length (b : bit_depth_t) (ss : List sample_t) :
    (payload_of b ss).length = ss.length * b.val := by
  induction ss with
  | nil => simp [payload_of]
  | cons s ss ih =>
    simp only [payload_of, List.length_append, List.length_cons, sample_bytes_length, ih]
    ring

/-- One mono write on a streaming writer with a normalised sample returns, extends the
payload by the bytes of the sample, adds their number to the counter and keeps the format. -/
theorem write_mono_step (b : bit_depth_t) (w : WavFile) (s : sample_t) (p : List Nat)
    (h : streaming w.fout_ p) (hs : s.normalised) :
    ∃ w1, write_mono b w s = some w1 ∧ streaming w1.fout_ (p ++ sample_bytes b s)
      ∧ w1.data_size_ = u32 (w.data_size_ + b.val)
      ∧ w1.bit_depth_ = w.bit_depth_ ∧ w1.channels_ = w.channels_
      ∧ w1.sample_rate_ = w.sample_rate_ := by
  cases s with
  | int v =>
    cases b
    · exact ⟨_, rfl, streaming_write _ _ _ h, rfl, rfl, rfl, rfl⟩
    · exact ⟨_, rfl, streaming_write _ _ _ h, rfl, rfl, rfl, rfl⟩
  | real x =>
    obtain ⟨h1, h2⟩ := hs
    cases b
    · exact ⟨w.write_mono_16bit (trunc_toward_zero (fl (0x7fff * x))),
        write_mono_16bit_double_eq w x h1 h2, streaming_write _ _ _ h, rfl, rfl, rfl, rfl⟩
    · exact ⟨w.write_mono_24bit (trunc_toward_zero (fl (0x7fffff * x))),
        write_mono_24bit_double_eq w x h1 h2, streaming_write _ _ _ h, rfl, rfl, rfl, rfl⟩

theorem u32_add_u32 (a b : Nat) : u32 (u32 a + b) = u32 (a + b) := by
  unfold u32; omega

theorem u32_lt (a : Nat) : u32 a < 4294967296 := by
  unfold u32; omega

theorem write_mono_seq_run (b : bit_depth_t) (ss : List sample_t) (w : WavFile)
    (p : List Nat) (h : streaming w.fout_ p) (hd : w.data_size_ < 4294967296)
    (hs : ∀ s ∈ ss, s.normalised) :
    ∃ w1, write_mono_seq b w ss = some w1 ∧ streaming w1.fout_ (p ++ payload_of b ss)
      ∧ w1.data_size_ = u32 (w.data_size_ + ss.length * b.val)
      ∧ w1.bit_depth_ = w.bit_depth_ ∧ w1.channels_ = w.channels_
      ∧ w1.sample_rate_ = w.sample_rate_ := by
  induction ss generalizing w p with
  | nil =>
    refine ⟨w, rfl, by simpa [payload_of] using h, ?_, rfl, rfl, rfl⟩
    simp only [List.length_nil, Nat.zero_mul, Nat.add_zero, u32]
    omega
  | cons s ss ih =>
    obtain ⟨w1, hw1, hst1, hd1, hb1, hc1, hr1⟩ :=
      write_mono_step b w s p h (hs s (List.mem_cons_self s ss))
    obtain ⟨w2, hw2, hst2, hd2, hb2, hc2, hr2⟩ :=
      ih w1 (p ++ sample_bytes b s) hst1 (by rw [hd1]; exact u32_lt _)
        (fun t ht => hs t (List.mem_cons_of_mem s ht))
    refine ⟨w2, ?_, ?_, ?_, hb2.trans hb1, hc2.trans hc1, hr2.trans hr1⟩
    · simp [write_mono_seq, hw1, hw2]
    · simpa [payload_of, List.append_assoc] using hst2
    · rw [hd2, hd1, u32_add_u32, List.length_cons]
      congr 1
      ring

/-- C2: a freshly constructed writer opened successfully with any depth, channel count and
sample rate, given N mono writes of that depth (integer samples, or floating-point samples
in [-1, 1]) with N x bytes-per-sample below 2^32, returns from every write, and after
`close` the subchunk2 size field (offset 40, little-endian) is N x bytes-per-sample and
the file is 44 + N x bytes-per-sample bytes long. -/
theorem mono_writes_size_field_and_length (b : bit_depth_t) (c : channels_t) (r : Nat)
    (samples : List sample_t) (hs : ∀ s ∈ samples, s.normalised)
    (hN : samples.length * b.val < 4294967296) :
    ∃ w, write_mono_seq b (WavFile.init.open true b c r) samples = some w
      ∧ slice w.close.fout_.file 40 4 = le_bytes 4 (samples.length * b.val)
      ∧ le_value (slice w.close.fout_.file 40 4) = samples.length * b.val
      ∧ w.close.fout_.file.length = 44 + samples.length * b.val := by
  obtain ⟨w, hw, hst, hd, -, -, -⟩ :=
    write_mono_seq_run b samples (WavFile.init.open true b c r) []
      (streaming_open _ rfl) (show (0 : Nat) < 4294967296 by decide) hs
  have hd0 : w.data_size_ = samples.length * b.val := by
    rw [hd]
    show u32 (0 + samples.length * b.val) = _
    rw [Nat.zero_add, u32, Nat.mod_eq_of_lt hN]
  have hslice : slice w.close.fout_.file 40 4 = le_bytes 4 (samples.length * b.val) := by
    rw [close_slice w hst.1 hst.2.1 40 4 (by decide), (wav_header_slices w).2.2.2.2.2.2.2.2.2.2.2.2,
      hd0]
  refine ⟨w, hw, hslice, ?_, ?_⟩
  · rw [hslice, le_value_le_bytes_of_lt _ _ (by simpa using hN)]
  · rw [streaming_close w _ hst, List.length_append, wav_header_length, List.nil_append,
      payload_of_length]

/-- C2, witness: 16-bit mono at 44100 Hz with one write of 0.0. -/
theorem mono_writes_size_field_and_length_witness :
    (∀ s ∈ [sample_t.real 0], s.normalised)
    ∧ [sample_t.real 0].length * bit_depth_t.WAV_16BIT.val < 4294967296
    ∧ ∃ w, write_mono_seq .WAV_16BIT (WavFile.init.open true .WAV_16BIT .WAV_MONO 44100)
          [sample_t.real 0] = some w
      ∧ slice w.close.fout_.file 40 4 = [2, 0, 0, 0]
      ∧ le_value (slice w.close.fout_.file 40 4) = 2
      ∧ w.close.fout_.file.length = 46 :=
  ⟨by simp [sample_t.normalised], by decide,
    mono_writes_size_field_and_length .WAV_16BIT .WAV_MONO 44100 [sample_t.real 0]
      (by simp [sample_t.normalised]) (by decide)⟩

/-! ## Layout of the header -/

theorem u16_channels (c : channels_t) : u16 c.val = c.val := by
  cases c <;> rfl

/-- C3: on a writer whose stream is open and has not failed, with 32-bit sample rate and
payload counter, `close` replaces the first 44 bytes of the file by a 44-byte header and
keeps the rest; in it bytes 0..3 are "RIFF", 8..11 "WAVE", 12..15 "fmt ", 16..19
little-endian 16, 20..21 little-endian 1, 22..23 the channel count, 24..27 the sample rate,
36..39 "data" and 40..43 the payload counter. -/
theorem close_header_layout (w : WavFile) (hopen : w.fout_.is_open = true)
    (hgood : w.fout_.fail = false) (hr : w.sample_rate_ < 4294967296)
    (hd : w.data_size_ < 4294967296) :
    (∃ hdr : List Nat, hdr.length = 44 ∧ w.close.fout_.file = hdr ++ w.fout_.file.drop 44)
    ∧ slice w.close.fout_.file 0 4 = ascii "RIFF"
    ∧ slice w.close.fout_.file 8 4 = ascii "WAVE"
    ∧ slice w.close.fout_.file 12 4 = ascii "fmt "
    ∧ slice w.close.fout_.file 16 4 = le_bytes 4 16
    ∧ slice w.close.fout_.file 20 2 = le_bytes 2 1
    ∧ slice w.close.fout_.file 22 2 = le_bytes 2 w.channels_.val
    ∧ slice w.close.fout_.file 24 4 = le_bytes 4 w.sample_rate_
    ∧ le_value (slice w.close.fout_.file 24 4) = w.sample_rate_
    ∧ slice w.close.fout_.file 36 4 = ascii "data"
    ∧ slice w.close.fout_.file 40 4 = le_bytes 4 w.data_size_
    ∧ le_value (slice w.close.fout_.file 40 4) = w.data_size_ := by
  obtain ⟨h0, -, h8, h12, h16, h20, h22, h24, -, -, -, h36, h40⟩ := wav_header_slices w
  have hs : ∀ off n, off + n ≤ 44 →
      slice w.close.fout_.file off n = slice (WavFile.wav_header w) off n :=
    fun off n h => close_slice w hopen hgood off n h
  refine ⟨⟨WavFile.wav_header w, wav_header_length w, close_file w hopen hgood⟩, ?_, ?_, ?_,
    ?_, ?_, ?_, ?_, ?_, ?_, ?_, ?_⟩
  · rw [hs 0 4 (by decide), h0]; decide
  · rw [hs 8 4 (by decide), h8]; decide
  · rw [hs 12 4 (by decide), h12]; decide
  · rw [hs 16 4 (by decide), h16]; decide
  · rw [hs 20 2 (by decide), h20]; decide
  · rw [hs 22 2 (by decide), h22, u16_channels]
  · rw [hs 24 4 (by decide), h24]
  · rw [hs 24 4 (by decide), h24, le_value_le_bytes_of_lt _ _ (by simpa using hr)]
  · rw [hs 36 4 (by decide), h36]; decide
  · rw [hs 40 4 (by decide), h40]
  · rw [hs 40 4 (by decide), h40, le_value_le_bytes_of_lt _ _ (by simpa using hd)]

/-- C3, witness: 16-bit mono at 44100 Hz, opened and closed; the sample rate field reads
44 AC 00 00. -/
theorem close_header_layout_witness :
    slice (WavFile.init.open true .WAV_16BIT .WAV_MONO 44100).close.fout_.file 24 4
        = [0x44, 0xAC, 0x00, 0x00]
    ∧ slice (WavFile.init.open true .WAV_16BIT .WAV_MONO 44100).close.fout_.file 0 4
        = ascii "RIFF"
    ∧ le_value (slice (WavFile.init.open true .WAV_16BIT .WAV_MONO 44100).close.fout_.file
        40 4) = 0 := by
  have h := close_header_layout (WavFile.init.open true .WAV_16BIT .WAV_MONO 44100) rfl rfl
    (by decide) (by decide)
  exact ⟨h.2.2.2.2.2.2.2.1, h.2.1, h.2.2.2.2.2.2.2.2.2.2.2⟩

/-- C4: on a writer whose stream is open and has not failed, with
sample rate x channels x bytes-per-sample below 2^32, the header written by `close` has
byte rate (offset 28, 4 bytes) r x c x b, block align (offset 32, 2 bytes) c x b and bits
per sample (offset 34, 2 bytes) b x 8, all little-endian. -/
theorem close_rate_fields (w : WavFile) (hopen : w.fout_.is_open = true)
    (hgood : w.fout_.fail = false)
    (h : w.sample_rate_ * w.channels_.val * w.bit_depth_.val < 4294967296) :
    slice w.close.fout_.file 28 4
        = le_bytes 4 (w.sample_rate_ * w.channels_.val * w.bit_depth_.val)
    ∧ le_value (slice w.close.fout_.file 28 4)
        = w.sample_rate_ * w.channels_.val * w.bit_depth_.val
    ∧ slice w.close.fout_.file 32 2 = le_bytes 2 (w.channels_.val * w.bit_depth_.val)
    ∧ le_value (slice w.close.fout_.file 32 2) = w.channels_.val * w.bit_depth_.val
    ∧ slice w.close.fout_.file 34 2 = le_bytes 2 (w.bit_depth_.val * 8)
    ∧ le_value (slice w.close.fout_.file 34 2) = w.bit_depth_.val * 8 := by
  obtain ⟨-, -, -, -, -, -, -, -, h28, h32, h34, -, -⟩ := wav_header_slices w
  have hs : ∀ off n, off + n ≤ 44 →
      slice w.close.fout_.file off n = slice (WavFile.wav_header w) off n :=
    fun off n h => close_slice w hopen hgood off n h
  have e28 : u32 (u32 (w.sample_rate_ * u16 w.channels_.val) * w.bit_depth_.val)
      = w.sample_rate_ * w.channels_.val * w.bit_depth_.val := by
    rw [u16_channels]
    generalize w.sample_rate_ = r at h ⊢
    cases hc : w.channels_ <;> cases hb : w.bit_depth_ <;>
      simp only [hc, hb, channels_t.val, bit_depth_t.val, u32] at h ⊢ <;> omega
  have e32 : u16 (u32 (u16 w.channels_.val * w.bit_depth_.val))
      = w.channels_.val * w.bit_depth_.val := by
    cases w.channels_ <;> cases w.bit_depth_ <;> rfl
  have e34 : u16 (u32 (w.bit_depth_.val * 8)) = w.bit_depth_.val * 8 := by
    cases w.bit_depth_ <;> rfl
  have l32 : w.channels_.val * w.bit_depth_.val < 256 ^ 2 := by
    cases w.channels_ <;> cases w.bit_depth_ <;> decide
  have l34 : w.bit_depth_.val * 8 < 256 ^ 2 := by
    cases w.bit_depth_ <;> decide
  rw [hs 28 4 (by decide), hs 32 2 (by decide), hs 34 2 (by decide), h28, h32, h34, e28, e32,
    e34]
  exact ⟨rfl, le_value_le_bytes_of_lt _ _ (by simpa using h), rfl,
    le_value_le_bytes_of_lt _ _ l32, rfl, le_value_le_bytes_of_lt _ _ l34⟩

/-- C4, witness: 24-bit stereo at 48000 Hz gives byte rate 288000, block align 6 and
24 bits per sample. -/
theorem close_rate_fields_witness :
    le_value (slice (WavFile.init.open true .WAV_24BIT .WAV_STEREO 48000).close.fout_.file
        28 4) = 288000
    ∧ le_value (slice (WavFile.init.open true .WAV_24BIT .WAV_STEREO 48000).close.fout_.file
        32 2) = 6
    ∧ le_value (slice (WavFile.init.open true .WAV_24BIT .WAV_STEREO 48000).close.fout_.file
        34 2) = 24 := by
  have h := close_rate_fields (WavFile.init.open true .WAV_24BIT .WAV_STEREO 48000) rfl rfl
    (by decide)
  exact ⟨h.2.1, h.2.2.2.1, h.2.2.2.2.2⟩

/-- C5 (the code at the failing input): a writer that wrote one 16-bit sample to a first file
and was closed is opened again successfully; `open` leaves the payload counter at 2, and
closing at once yields a 44-byte file whose subchunk2 size field is 2, not 0. -/
theorem reopen_keeps_payload_counter :
    ((((WavFile.init.open true .WAV_16BIT .WAV_MONO 44100).write_mono_16bit 0).close).open
        true .WAV_16BIT .WAV_MONO 44100).fout_.is_open = true
    ∧ ((((WavFile.init.open true .WAV_16BIT .WAV_MONO 44100).write_mono_16bit 0).close).open
        true .WAV_16BIT .WAV_MONO 44100).fout_.fail = false
    ∧ ((((WavFile.init.open true .WAV_16BIT .WAV_MONO 44100).write_mono_16bit 0).close).open
        true .WAV_16BIT .WAV_MONO 44100).data_size_ = 2
    ∧ ((((WavFile.init.open true .WAV_16BIT .WAV_MONO 44100).write_mono_16bit 0).close).open
        true .WAV_16BIT .WAV_MONO 44100).close.fout_.file.length = 44
    ∧ slice ((((WavFile.init.open true .WAV_16BIT .WAV_MONO 44100).write_mono_16bit
        0).close).open true .WAV_16BIT .WAV_MONO 44100).close.fout_.file 40 4 = [2, 0, 0, 0]
    ∧ le_value (slice ((((WavFile.init.open true .WAV_16BIT .WAV_MONO 44100).write_mono_16bit
        0).close).open true .WAV_16BIT .WAV_MONO 44100).close.fout_.file 40 4) ≠ 0 := by
  decide

/-! ## Serialisation of integer samples -/

theorem write_file_past_end (s : ofstream) (bs : List Nat) (hopen : s.is_open = true)
    (hgood : s.fail = false) (hpos : s.file.length ≤ s.pos) :
    (s.write bs).file = s.file ++ List.replicate (s.pos - s.file.length) 0 ++ bs
    ∧ (s.write bs).pos = s.pos + bs.length
    ∧ (s.write bs).is_open = true ∧ (s.write bs).fail = false := by
  simp [ofstream.write, hopen, hgood, write_at_past_end _ _ _ hpos]

theorem int16_bytes_eq (v : Int) :
    int16_bytes v = [(v % 256).toNat, (v / 256 % 256).toNat] := by
  simp only [int16_bytes, le_bytes, List.cons.injEq, and_true]
  constructor <;> omega

theorem int32_bytes_take (v : Int) :
    (int32_bytes v).take 3
      = [(v % 256).toNat, (v / 256 % 256).toNat, (v / 65536 % 256).toNat] := by
  simp only [int32_bytes, le_bytes, List.take_succ_cons, List.take_zero, List.cons.injEq,
    and_true]
  refine ⟨?_, ?_, ?_⟩ <;> omega

/-- C6: on a writer whose stream is open, has not failed and has its put position at or
past the end of the file, `write_mono_16bit(s)` for a signed 16-bit `s` appends exactly
the two bytes (low byte, high byte) of the two's-complement code of `s`, advances the
position by 2, and reading the two bytes back as a little-endian signed 16-bit integer
gives `s`. -/
theorem write_mono_16bit_round_trip (w : WavFile) (s : Int) (hopen : w.fout_.is_open = true)
    (hgood : w.fout_.fail = false) (hpos : w.fout_.file.length ≤ w.fout_.pos)
    (hlo : -32768 ≤ s) (hhi : s ≤ 32767) :
    (w.write_mono_16bit s).fout_.file
        = w.fout_.file ++ List.replicate (w.fout_.pos - w.fout_.file.length) 0
          ++ [(s % 256).toNat, (s / 256 % 256).toNat]
    ∧ (w.write_mono_16bit s).fout_.pos = w.fout_.pos + 2
    ∧ (s % 256).toNat + 256 * (s / 256 % 256).toNat = (s % 65536).toNat
    ∧ read_int16_le [(s % 256).toNat, (s / 256 % 256).toNat] = s := by
  have hw : (w.write_mono_16bit s).fout_
      = w.fout_.write [(s % 256).toNat, (s / 256 % 256).toNat] := by
    show w.fout_.write (int16_bytes s) = _
    rw [int16_bytes_eq]
  obtain ⟨hf, hp, -, -⟩ := write_file_past_end w.fout_ _ hopen hgood hpos
  rw [hw]
  refine ⟨hf, hp, by omega, ?_⟩
  simp only [read_int16_le, le_value]
  split <;> omega

/-- C6, witness: the sample 0x7fff is stored as the bytes 0xff, 0x7f right after the
reserved header space. -/
theorem write_mono_16bit_round_trip_witness :
    ((WavFile.init.open true .WAV_16BIT .WAV_MONO 44100).write_mono_16bit 0x7fff).fout_.file
        = List.replicate 44 0 ++ [0xff, 0x7f]
    ∧ read_int16_le [0xff, 0x7f] = 0x7fff := by
  have h := write_mono_16bit_round_trip (WavFile.init.open true .WAV_16BIT .WAV_MONO 44100)
    0x7fff rfl rfl (by decide) (by decide) (by decide)
  exact ⟨h.1, h.2.2.2⟩

/-- C7: on a writer whose stream is open, has not failed and has its put position at or
past the end of the file, `write_mono_24bit(s)` appends exactly three bytes, namely bits
0-7, 8-15 and 16-23 of `s` in that order, and advances the position by 3; samples that
agree modulo 2^24 leave the writer in the same state; and for `s` in [-2^23, 2^23 - 1]
sign-extending the three bytes gives `s`. -/
theorem write_mono_24bit_bytes (w : WavFile) (s t : Int) (hopen : w.fout_.is_open = true)
    (hgood : w.fout_.fail = false) (hpos : w.fout_.file.length ≤ w.fout_.pos) :
    (w.write_mono_24bit s).fout_.file
        = w.fout_.file ++ List.replicate (w.fout_.pos - w.fout_.file.length) 0
          ++ [(s % 256).toNat, (s / 256 % 256).toNat, (s / 65536 % 256).toNat]
    ∧ (w.write_mono_24bit s).fout_.pos = w.fout_.pos + 3
    ∧ (s % 16777216 = t % 16777216 → w.write_mono_24bit s = w.write_mono_24bit t)
    ∧ (-8388608 ≤ s → s ≤ 8388607 →
        read_int24_le [(s % 256).toNat, (s / 256 % 256).toNat, (s / 65536 % 256).toNat] = s) := by
  have hw : (w.write_mono_24bit s).fout_
      = w.fout_.write [(s % 256).toNat, (s / 256 % 256).toNat, (s / 65536 % 256).toNat] := by
    show w.fout_.write ((int32_bytes s).take 3) = _
    rw [int32_bytes_take]
  obtain ⟨hf, hp, -, -⟩ := write_file_past_end w.fout_ _ hopen hgood hpos
  rw [hw]
  refine ⟨hf, hp, ?_, ?_⟩
  · intro hst
    have e : (int32_bytes s).take 3 = (int32_bytes t).take 3 := by
      rw [int32_bytes_take, int32_bytes_take]
      simp only [List.cons.injEq, and_true]
      refine ⟨?_, ?_, ?_⟩ <;> omega
    simp only [WavFile.write_mono_24bit, e]
  · intro hlo hhi
    simp only [read_int24_le, le_value]
    split <;> omega

/-- C7, witness: 0x123456 is stored as 56 34 12 and -1 as ff ff ff; 0x7f123456 agrees with
0x123456 modulo 2^24 and leaves the same state. -/
theorem write_mono_24bit_bytes_witness :
    ((WavFile.init.open true .WAV_24BIT .WAV_MONO 48000).write_mono_24bit 0x123456).fout_.file
        = List.replicate 44 0 ++ [0x56, 0x34, 0x12]
    ∧ ((WavFile.init.open true .WAV_24BIT .WAV_MONO 48000).write_mono_24bit (-1)).fout_.file
        = List.replicate 44 0 ++ [0xff, 0xff, 0xff]
    ∧ (WavFile.init.open true .WAV_24BIT .WAV_MONO 48000).write_mono_24bit 0x123456
        = (WavFile.init.open true .WAV_24BIT .WAV_MONO 48000).write_mono_24bit 0x7f123456
    ∧ read_int24_le [0xff, 0xff, 0xff] = -1 := by
  have h1 := write_mono_24bit_bytes (WavFile.init.open true .WAV_24BIT .WAV_MONO 48000)
    0x123456 0x7f123456 rfl rfl (by decide)
  have h2 := write_mono_24bit_bytes (WavFile.init.open true .WAV_24BIT .WAV_MONO 48000)
    (-1) (-1) rfl rfl (by decide)
  exact ⟨h1.1, h2.1, h1.2.2.1 (by decide), h2.2.2.2 (by decide) (by decide)⟩

/-! ## Floating-point writers -/

theorem trunc_toward_zero_intCast (z : Int) : trunc_toward_zero (z : ℚ) = z := by
  unfold trunc_toward_zero
  split <;> simp

theorem round_double_intCast (k : Int) (hk : |(k : ℚ)| < 2 ^ 53) :
    round_double (k : ℚ) = some (k : ℚ) := by
  have h := (round_double_between (k : ℚ) k k hk le_rfl le_rfl).1
  rw [fl_intCast k hk] at h
  exact h

/-- C8 (counterexample): the `double` x = 0x1.0002000400080p-15 lies in [-1, 1]; the exact
product 0x7fff * x is 1 - 2^-60, whose truncation is 0, but the `double` product is 1.0, so
`write_mono_16bit(x)` stores the sample 1 (bytes 01 00), not the sample 0. -/
theorem write_mono_double_exact_product_fails :
    -1 ≤ double_below_inv_32767 ∧ double_below_inv_32767 ≤ 1
    ∧ round_double double_below_inv_32767 = some double_below_inv_32767
    ∧ trunc_toward_zero (0x7fff * double_below_inv_32767) = 0
    ∧ (WavFile.init.open true .WAV_16BIT .WAV_MONO 44100).write_mono_16bit_double
          double_below_inv_32767
        = some ((WavFile.init.open true .WAV_16BIT .WAV_MONO 44100).write_mono_16bit 1)
    ∧ ((WavFile.init.open true .WAV_16BIT .WAV_MONO 44100).write_mono_16bit 1).fout_.file
        = List.replicate 44 0 ++ [1, 0]
    ∧ (WavFile.init.open true .WAV_16BIT .WAV_MONO 44100).write_mono_16bit_double
          double_below_inv_32767
        ≠ some ((WavFile.init.open true .WAV_16BIT .WAV_MONO 44100).write_mono_16bit
            (trunc_toward_zero (0x7fff * double_below_inv_32767))) := by
  have hlo : -1 ≤ double_below_inv_32767 := by norm_num [double_below_inv_32767]
  have hhi : double_below_inv_32767 ≤ 1 := by norm_num [double_below_inv_32767]
  have ht : trunc_toward_zero (fl (0x7fff * double_below_inv_32767)) = 1 := by
    rw [fl_product_below_one]
    exact_mod_cast trunc_toward_zero_intCast 1
  have hw := write_mono_16bit_double_eq (WavFile.init.open true .WAV_16BIT .WAV_MONO 44100)
    double_below_inv_32767 hlo hhi
  rw [ht] at hw
  refine ⟨hlo, hhi, double_below_inv_32767_exact, trunc_exact_product_below_one, hw,
    by decide, ?_⟩
  rw [hw, trunc_exact_product_below_one]
  decide

/-- C8 (amended): for every writer state and every `x` in [-1, 1], `write_mono_16bit(x)`
returns the state of the integer `write_mono_16bit` at trunc(p), where p is the `double`
product 0x7fff * x, i.e. the exact product rounded to the nearest `double` (ties to even),
and `write_mono_24bit(x)` likewise with 0x7fffff; trunc rounds toward zero.  The product
does not overflow and lies between the floor and the ceiling of the exact product; when
the exact product is itself a `double`, the sample written is trunc of the exact
product. -/
theorem write_mono_double_rounded_conversion (w : WavFile) (x : ℚ) (h1 : -1 ≤ x)
    (h2 : x ≤ 1) :
    w.write_mono_16bit_double x
        = some (w.write_mono_16bit (trunc_toward_zero (fl (0x7fff * x))))
    ∧ w.write_mono_24bit_double x
        = some (w.write_mono_24bit (trunc_toward_zero (fl (0x7fffff * x))))
    ∧ round_double (0x7fff * x) = some (fl (0x7fff * x))
    ∧ round_double (0x7fffff * x) = some (fl (0x7fffff * x))
    ∧ ((⌊(0x7fff : ℚ) * x⌋ : Int) : ℚ) ≤ fl (0x7fff * x)
    ∧ fl (0x7fff * x) ≤ ((⌈(0x7fff : ℚ) * x⌉ : Int) : ℚ)
    ∧ ((⌊(0x7fffff : ℚ) * x⌋ : Int) : ℚ) ≤ fl (0x7fffff * x)
    ∧ fl (0x7fffff * x) ≤ ((⌈(0x7fffff : ℚ) * x⌉ : Int) : ℚ)
    ∧ (round_double (0x7fff * x) = some (0x7fff * x) →
        w.write_mono_16bit_double x
          = some (w.write_mono_16bit (trunc_toward_zero (0x7fff * x))))
    ∧ (round_double (0x7fffff * x) = some (0x7fffff * x) →
        w.write_mono_24bit_double x
          = some (w.write_mono_24bit (trunc_toward_zero (0x7fffff * x)))) := by
  obtain ⟨-, -, -, f1, f2⟩ := convert_normalised 0x7fff 32767 (-32768) 32767 (by norm_num)
    (by norm_num) (by decide) (by decide) x h1 h2
  obtain ⟨-, -, -, g1, g2⟩ := convert_normalised 0x7fffff 8388607 (-2147483648) 2147483647
    (by norm_num) (by norm_num) (by decide) (by decide) x h1 h2
  have q16 : |(0x7fff : ℚ) * x| < 2 ^ 53 := by
    rw [abs_lt]
    constructor <;> nlinarith
  have q24 : |(0x7fffff : ℚ) * x| < 2 ^ 53 := by
    rw [abs_lt]
    constructor <;> nlinarith
  have r16 := (round_double_between _ _ _ q16 (Int.floor_le _) (Int.le_ceil _)).1
  have r24 := (round_double_between _ _ _ q24 (Int.floor_le _) (Int.le_ceil _)).1
  refine ⟨write_mono_16bit_double_eq w x h1 h2, write_mono_24bit_double_eq w x h1 h2, r16,
    r24, f1, f2, g1, g2, ?_, ?_⟩
  · intro he
    rw [write_mono_16bit_double_eq w x h1 h2, fl_of_round_double _ _ he]
  · intro he
    rw [write_mono_24bit_double_eq w x h1 h2, fl_of_round_double _ _ he]

/-- C8 (amended), witness: at 16-bit 1.0 converts to 0x7fff, -1.0 to -0x7fff and 0.0 to 0;
-0.5 converts to -16383 (toward zero, not down); 0x1.0002000400080p-15 converts to 1
(its `double` product is 1.0); at 24-bit 1.0 converts to 0x7fffff. -/
theorem write_mono_double_rounded_conversion_witness :
    (WavFile.init.open true .WAV_16BIT .WAV_MONO 44100).write_mono_16bit_double 1
        = some ((WavFile.init.open true .WAV_16BIT .WAV_MONO 44100).write_mono_16bit 0x7fff)
    ∧ (WavFile.init.open true .WAV_16BIT .WAV_MONO 44100).write_mono_16bit_double (-1)
        = some ((WavFile.init.open true .WAV_16BIT .WAV_MONO 44100).write_mono_16bit (-0x7fff))
    ∧ (WavFile.init.open true .WAV_16BIT .WAV_MONO 44100).write_mono_16bit_double 0
        = some ((WavFile.init.open true .WAV_16BIT .WAV_MONO 44100).write_mono_16bit 0)
    ∧ (WavFile.init.open true .WAV_16BIT .WAV_MONO 44100).write_mono_16bit_double (-1 / 2)
        = some ((WavFile.init.open true .WAV_16BIT .WAV_MONO 44100).write_mono_16bit (-16383))
    ∧ (WavFile.init.open true .WAV_16BIT .WAV_MONO 44100).write_mono_16bit_double
          double_below_inv_32767
        = some ((WavFile.init.open true .WAV_16BIT .WAV_MONO 44100).write_mono_16bit 1)
    ∧ (WavFile.init.open true .WAV_24BIT .WAV_MONO 44100).write_mono_24bit_double 1
        = some ((WavFile.init.open true .WAV_24BIT .WAV_MONO 44100).write_mono_24bit
            0x7fffff) := by
  have e1 : (0x7fff : ℚ) * 1 = ((0x7fff : Int) : ℚ) := by norm_num
  have e2 : (0x7fff : ℚ) * -1 = ((-0x7fff : Int) : ℚ) := by norm_num
  have e3 : (0x7fff : ℚ) * 0 = ((0 : Int) : ℚ) := by norm_num
  have e5 : (0x7fffff : ℚ) * 1 = ((0x7fffff : Int) : ℚ) := by norm_num
  have a1 := (write_mono_double_rounded_conversion
    (WavFile.init.open true .WAV_16BIT .WAV_MONO 44100) 1 (by norm_num)
    (by norm_num)).2.2.2.2.2.2.2.2.1
    (by rw [e1]; exact round_double_intCast _ (by norm_num))
  have a2 := (write_mono_double_rounded_conversion
    (WavFile.init.open true .WAV_16BIT .WAV_MONO 44100) (-1) (by norm_num)
    (by norm_num)).2.2.2.2.2.2.2.2.1
    (by rw [e2]; exact round_double_intCast _ (by norm_num))
  have a3 := (write_mono_double_rounded_conversion
    (WavFile.init.open true .WAV_16BIT .WAV_MONO 44100) 0 (by norm_num)
    (by norm_num)).2.2.2.2.2.2.2.2.1
    (by rw [e3]; exact round_double_intCast _ (by norm_num))
  have a4 := (write_mono_double_rounded_conversion
    (WavFile.init.open true .WAV_16BIT .WAV_MONO 44100) (-1 / 2) (by norm_num)
    (by norm_num)).1
  have a5 := (write_mono_double_rounded_conversion
    (WavFile.init.open true .WAV_16BIT .WAV_MONO 44100) double_below_inv_32767
    (by norm_num [double_below_inv_32767]) (by norm_num [double_below_inv_32767])).1
  have a6 := (write_mono_double_rounded_conversion
    (WavFile.init.open true .WAV_24BIT .WAV_MONO 44100) 1 (by norm_num)
    (by norm_num)).2.2.2.2.2.2.2.2.2
    (by rw [e5]; exact round_double_intCast _ (by norm_num))
  rw [e1, trunc_toward_zero_intCast] at a1
  rw [e2, trunc_toward_zero_intCast] at a2
  rw [e3, trunc_toward_zero_intCast] at a3
  rw [trunc_minus_half_product] at a4
  rw [fl_product_below_one] at a5
  have t1 : trunc_toward_zero (1 : ℚ) = 1 := by exact_mod_cast trunc_toward_zero_intCast 1
  rw [t1] at a5
  rw [e5, trunc_toward_zero_intCast] at a6
  exact ⟨a1, a2, a3, a4, a5, a6⟩

/-! ## Stereo writers -/

theorem write_write_past_end (s : ofstream) (bs1 bs2 : List Nat) (hopen : s.is_open = true)
    (hgood : s.fail = false) (hpos : s.file.length ≤ s.pos) :
    ((s.write bs1).write bs2).file
        = s.file ++ List.replicate (s.pos - s.file.length) 0 ++ bs1 ++ bs2
    ∧ ((s.write bs1).write bs2).pos = s.pos + bs1.length + bs2.length := by
  obtain ⟨hf1, hp1, ho1, hg1⟩ := write_file_past_end s bs1 hopen hgood hpos
  have hl : (s.write bs1).file.length = (s.write bs1).pos := by
    rw [hf1, hp1]
    simp only [List.length_append, List.length_replicate]
    omega
  obtain ⟨hf2, hp2, -, -⟩ := write_file_past_end (s.write bs1) bs2 ho1 hg1 (by omega)
  rw [hf2, hp2, hl, Nat.sub_self, hp1, hf1]
  simp

/-- C9: each stereo writer is the mono writer of the same depth and domain applied to the
left and then to the right sample.  On a writer whose stream is open, has not failed and
has its put position at or past the end of the file, the file gains the bytes of the left
sample immediately followed by those of the right one, the position advances by 4 (16-bit)
or 6 (24-bit), twice the 2 or 3 bytes of one mono write, and the 32-bit counter by the
same amount; with inputs in [-1, 1] the floating-point mono writers return the state of
the integer mono writer at the converted sample (the truncated `double` product), and the
floating-point stereo writers return the state of the integer stereo writers at the two
converted samples, left then right. -/
theorem write_stereo_interleaves (w : WavFile) (l r : Int) (x y : ℚ)
    (hopen : w.fout_.is_open = true) (hgood : w.fout_.fail = false)
    (hpos : w.fout_.file.length ≤ w.fout_.pos)
    (hx1 : -1 ≤ x) (hx2 : x ≤ 1) (hy1 : -1 ≤ y) (hy2 : y ≤ 1) :
    w.write_stereo_16bit l r = (w.write_mono_16bit l).write_mono_16bit r
    ∧ w.write_stereo_24bit l r = (w.write_mono_24bit l).write_mono_24bit r
    ∧ w.write_stereo_16bit_double x y
        = (w.write_mono_16bit_double x).bind (fun w1 => w1.write_mono_16bit_double y)
    ∧ w.write_stereo_24bit_double x y
        = (w.write_mono_24bit_double x).bind (fun w1 => w1.write_mono_24bit_double y)
    ∧ (w.write_stereo_16bit l r).fout_.file
        = w.fout_.file ++ List.replicate (w.fout_.pos - w.fout_.file.length) 0
          ++ int16_bytes l ++ int16_bytes r
    ∧ (int16_bytes l).length = 2 ∧ (int16_bytes r).length = 2
    ∧ (w.write_mono_16bit l).fout_.pos = w.fout_.pos + 2
    ∧ (w.write_stereo_16bit l r).fout_.pos = w.fout_.pos + 4
    ∧ (w.write_mono_16bit l).data_size_ = u32 (w.data_size_ + 2)
    ∧ (w.write_stereo_16bit l r).data_size_ = u32 (w.data_size_ + 4)
    ∧ (w.write_stereo_24bit l r).fout_.file
        = w.fout_.file ++ List.replicate (w.fout_.pos - w.fout_.file.length) 0
          ++ (int32_bytes l).take 3 ++ (int32_bytes r).take 3
    ∧ ((int32_bytes l).take 3).length = 3 ∧ ((int32_bytes r).take 3).length = 3
    ∧ (w.write_mono_24bit l).fout_.pos = w.fout_.pos + 3
    ∧ (w.write_stereo_24bit l r).fout_.pos = w.fout_.pos + 6
    ∧ (w.write_mono_24bit l).data_size_ = u32 (w.data_size_ + 3)
    ∧ (w.write_stereo_24bit l r).data_size_ = u32 (w.data_size_ + 6)
    ∧ w.write_mono_16bit_double x
        = some (w.write_mono_16bit (trunc_toward_zero (fl (0x7fff * x))))
    ∧ (w.write_mono_16bit (trunc_toward_zero (fl (0x7fff * x)))).write_mono_16bit_double y
        = some ((w.write_mono_16bit (trunc_toward_zero (fl (0x7fff * x)))).write_mono_16bit
            (trunc_toward_zero (fl (0x7fff * y))))
    ∧ w.write_stereo_16bit_double x y
        = some (w.write_stereo_16bit (trunc_toward_zero (fl (0x7fff * x)))
            (trunc_toward_zero (fl (0x7fff * y))))
    ∧ w.write_mono_24bit_double x
        = some (w.write_mono_24bit (trunc_toward_zero (fl (0x7fffff * x))))
    ∧ (w.write_mono_24bit (trunc_toward_zero (fl (0x7fffff * x)))).write_mono_24bit_double y
        = some ((w.write_mono_24bit (trunc_toward_zero (fl (0x7fffff * x)))).write_mono_24bit
            (trunc_toward_zero (fl (0x7fffff * y))))
    ∧ w.write_stereo_24bit_double x y
        = some (w.write_stereo_24bit (trunc_toward_zero (fl (0x7fffff * x)))
            (trunc_toward_zero (fl (0x7fffff * y)))) := by
  have l16 : ∀ v, (int16_bytes v).length = 2 := fun v => le_bytes_length _ _
  have l24 : ∀ v, ((int32_bytes v).take 3).length = 3 := fun v => by
    rw [int32_bytes_take]; rfl
  obtain ⟨f16, p16⟩ :=
    write_write_past_end w.fout_ (int16_bytes l) (int16_bytes r) hopen hgood hpos
  obtain ⟨f24, p24⟩ :=
    write_write_past_end w.fout_ ((int32_bytes l).take 3) ((int32_bytes r).take 3)
      hopen hgood hpos
  obtain ⟨-, q16, -, -⟩ := write_file_past_end w.fout_ (int16_bytes l) hopen hgood hpos
  obtain ⟨-, q24, -, -⟩ :=
    write_file_past_end w.fout_ ((int32_bytes l).take 3) hopen hgood hpos
  rw [l16, l16] at p16
  rw [l24, l24] at p24
  rw [l16] at q16
  rw [l24] at q24
  refine ⟨rfl, rfl, rfl, rfl, f16, l16 l, l16 r, q16, p16, rfl, ?_, f24, l24 l, l24 r, q24,
    p24, rfl, ?_, write_mono_16bit_double_eq w x hx1 hx2,
    write_mono_16bit_double_eq _ y hy1 hy2,
    write_stereo_16bit_double_eq w x y hx1 hx2 hy1 hy2,
    write_mono_24bit_double_eq w x hx1 hx2, write_mono_24bit_double_eq _ y hy1 hy2,
    write_stereo_24bit_double_eq w x y hx1 hx2 hy1 hy2⟩
  · show u32 (u32 (w.data_size_ + 2) + 2) = _
    rw [u32_add_u32]
  · show u32 (u32 (w.data_size_ + 3) + 3) = _
    rw [u32_add_u32]

/-- C9, witness: 24-bit stereo at 48000 Hz; `write_stereo_24bit(0x123456, -1)` on the freshly
opened writer stores 56 34 12 ff ff ff after the reserved header space and raises the
counter to 6; `write_stereo_16bit(0x1.0002000400080p-15, -0.5)` stores the samples 1 and
-16383, i.e. the bytes 01 00 01 c0, as the two mono writes do. -/
theorem write_stereo_interleaves_witness :
    ((WavFile.init.open true .WAV_24BIT .WAV_STEREO 48000).write_stereo_24bit
        0x123456 (-1)).fout_.file
      = List.replicate 44 0 ++ [0x56, 0x34, 0x12] ++ [0xff, 0xff, 0xff]
    ∧ ((WavFile.init.open true .WAV_24BIT .WAV_STEREO 48000).write_stereo_24bit
        0x123456 (-1)).data_size_ = 6
    ∧ (WavFile.init.open true .WAV_24BIT .WAV_STEREO 48000).write_stereo_16bit_double
        double_below_inv_32767 (-1 / 2)
      = some ((WavFile.init.open true .WAV_24BIT .WAV_STEREO 48000).write_stereo_16bit
          1 (-16383))
    ∧ ((WavFile.init.open true .WAV_24BIT .WAV_STEREO 48000).write_stereo_16bit
        1 (-16383)).fout_.file
      = List.replicate 44 0 ++ [0x01, 0x00] ++ [0x01, 0xc0]
    ∧ ((WavFile.init.open true .WAV_24BIT .WAV_STEREO 48000).write_mono_16bit_double
        double_below_inv_32767).bind (fun w1 => w1.write_mono_16bit_double (-1 / 2))
      = some ((WavFile.init.open true .WAV_24BIT .WAV_STEREO 48000).write_stereo_16bit
          1 (-16383)) := by
  have t1 : trunc_toward_zero (fl (0x7fff * double_below_inv_32767)) = 1 := by
    rw [fl_product_below_one]
    exact_mod_cast trunc_toward_zero_intCast 1
  have h := write_stereo_interleaves (WavFile.init.open true .WAV_24BIT .WAV_STEREO 48000)
    0x123456 (-1) double_below_inv_32767 (-1 / 2) rfl rfl (by decide)
    (by norm_num [double_below_inv_32767]) (by norm_num [double_below_inv_32767])
    (by norm_num) (by norm_num)
  have g := write_stereo_interleaves (WavFile.init.open true .WAV_24BIT .WAV_STEREO 48000)
    1 (-16383) 0 0 rfl rfl (by decide) (by norm_num) (by norm_num) (by norm_num)
    (by norm_num)
  have hs := h.2.2.2.2.2.2.2.2.2.2.2.2.2.2.2.2.2.2.2.2.1
  have hb := h.2.2.1
  rw [t1, trunc_minus_half_product] at hs
  rw [hs] at hb
  exact ⟨h.2.2.2.2.2.2.2.2.2.2.2.1, h.2.2.2.2.2.2.2.2.2.2.2.2.2.2.2.2.2.1, hs, g.2.2.2.2.1,
    hb.symm⟩

/-! ## Closing twice -/

theorem close_members (w : WavFile) :
    w.close.data_size_ = w.data_size_ ∧ w.close.sample_rate_ = w.sample_rate_
    ∧ w.close.bit_depth_ = w.bit_depth_ ∧ w.close.channels_ = w.channels_ := by
  unfold WavFile.close
  split <;> exact ⟨rfl, rfl, rfl, rfl⟩

/-- C10: for every writer state, in particular one reached by a successful open and any
writes, a second `close` right after the first leaves the file with the same bytes and
the same length; it writes nothing: the file, the put position, the attachment state and
every data member other than the stream are as the first `close` left them. -/
theorem close_close_same_file (w : WavFile) :
    w.close.close.fout_.file = w.close.fout_.file
    ∧ w.close.close.fout_.file.length = w.close.fout_.file.length
    ∧ w.close.close.fout_.pos = w.close.fout_.pos
    ∧ w.close.close.fout_.is_open = w.close.fout_.is_open
    ∧ w.close.close.data_size_ = w.close.data_size_
    ∧ w.close.close.sample_rate_ = w.close.sample_rate_
    ∧ w.close.close.bit_depth_ = w.close.bit_depth_
    ∧ w.close.close.channels_ = w.close.channels_ := by
  have hfile : w.close.close.fout_.file = w.close.fout_.file
      ∧ w.close.close.fout_.pos = w.close.fout_.pos
      ∧ w.close.close.fout_.is_open = w.close.fout_.is_open := by
    cases hf : w.fout_.fail <;> cases ho : w.fout_.is_open <;>
      simp [WavFile.close, ofstream.seekp, ofstream.write, ofstream.close, hf, ho]
  obtain ⟨m1, m2, m3, m4⟩ := close_members w.close
  exact ⟨hfile.1, by rw [hfile.1], hfile.2.1, hfile.2.2, m1, m2, m3, m4⟩

/-! ## Calls of the sample writers -/

/-- A call with normalised arguments returns, and its effect is that of the integer mono
writes of its samples, in order. -/
theorem run_eq_samples (w : WavFile) (c : write_call) (hc : c.normalised) :
    c.run w = some (c.samples.foldl write_int w) := by
  cases c with
  | mono_16bit s => rfl
  | stereo_16bit l r => rfl
  | mono_24bit s => rfl
  | stereo_24bit l r => rfl
  | mono_16bit_double x =>
    exact write_mono_16bit_double_eq w x hc.1 hc.2
  | stereo_16bit_double x y =>
    exact write_stereo_16bit_double_eq w x y hc.1.1 hc.1.2 hc.2.1 hc.2.2
  | mono_24bit_double x =>
    exact write_mono_24bit_double_eq w x hc.1 hc.2
  | stereo_24bit_double x y =>
    exact write_stereo_24bit_double_eq w x y hc.1.1 hc.1.2 hc.2.1 hc.2.2

theorem samples_bytes_append (a b : List (bit_depth_t × Int)) :
    samples_bytes (a ++ b) = samples_bytes a ++ samples_bytes b := by
  induction a with
  | nil => rfl
  | cons s ss ih => simp [samples_bytes, ih]

/-- A sequence of calls with normalised arguments returns, and its effect is that of the
integer mono writes of all its samples, in order. -/
theorem run_calls_eq_samples (cs : List write_call) (w : WavFile)
    (hcs : ∀ c ∈ cs, c.normalised) :
    run_calls w cs = some ((cs.flatMap write_call.samples).foldl write_int w)
    ∧ samples_bytes (cs.flatMap write_call.samples) = calls_bytes cs := by
  induction cs generalizing w with
  | nil => exact ⟨rfl, rfl⟩
  | cons c cs ih =>
    have h1 := run_eq_samples w c (hcs c (List.mem_cons_self c cs))
    obtain ⟨h2, h3⟩ := ih (c.samples.foldl write_int w)
      (fun d hd => hcs d (List.mem_cons_of_mem c hd))
    constructor
    · simp [run_calls, h1, h2, List.foldl_append]
    · simp [calls_bytes, write_call.bytes, samples_bytes_append, h3]

theorem write_int_members (w : WavFile) (s : bit_depth_t × Int) :
    (write_int w s).data_size_ = u32 (w.data_size_ + (sample_bytes s.1 (.int s.2)).length)
    ∧ (write_int w s).bit_depth_ = w.bit_depth_
    ∧ (write_int w s).channels_ = w.channels_
    ∧ (write_int w s).sample_rate_ = w.sample_rate_
    ∧ (write_int w s).fout_ = w.fout_.write (sample_bytes s.1 (.int s.2)) := by
  obtain ⟨b, v⟩ := s
  cases b
  · refine ⟨?_, rfl, rfl, rfl, rfl⟩
    show u32 (w.data_size_ + 2) = u32 (w.data_size_ + (int16_bytes v).length)
    rw [int16_bytes, le_bytes_length]
  · refine ⟨?_, rfl, rfl, rfl, rfl⟩
    show u32 (w.data_size_ + 3) = u32 (w.data_size_ + ((int32_bytes v).take 3).length)
    rw [int32_bytes_take]
    rfl

/-- The counter after a list of integer mono writes, in 32-bit arithmetic; the format
parameters do not change. -/
theorem foldl_write_int_members (ss : List (bit_depth_t × Int)) (w : WavFile)
    (hd : w.data_size_ < 4294967296) :
    (ss.foldl write_int w).data_size_ = u32 (w.data_size_ + (samples_bytes ss).length)
    ∧ (ss.foldl write_int w).bit_depth_ = w.bit_depth_
    ∧ (ss.foldl write_int w).channels_ = w.channels_
    ∧ (ss.foldl write_int w).sample_rate_ = w.sample_rate_ := by
  induction ss generalizing w with
  | nil =>
    refine ⟨?_, rfl, rfl, rfl⟩
    simp only [List.foldl_nil, samples_bytes, List.length_nil, Nat.add_zero, u32]
    omega
  | cons s ss ih =>
    obtain ⟨m1, m2, m3, m4, -⟩ := write_int_members w s
    obtain ⟨i1, i2, i3, i4⟩ := ih (write_int w s) (by rw [m1]; exact u32_lt _)
    refine ⟨?_, i2.trans m2, i3.trans m3, i4.trans m4⟩
    rw [List.foldl_cons, i1, m1, u32_add_u32, samples_bytes, List.length_append, Nat.add_assoc]

/-- On a failed stream integer mono writes leave the stream as it is. -/
theorem foldl_write_int_failed (ss : List (bit_depth_t × Int)) (w : WavFile)
    (hf : w.fout_.fail = true) : (ss.foldl write_int w).fout_ = w.fout_ := by
  induction ss generalizing w with
  | nil => rfl
  | cons s ss ih =>
    have h1 : (write_int w s).fout_ = w.fout_ := by
      rw [(write_int_members w s).2.2.2.2]
      simp [ofstream.write, hf]
    rw [List.foldl_cons, ih (write_int w s) (by rw [h1]; exact hf), h1]

/-- On a streaming writer integer mono writes extend the payload by their bytes. -/
theorem foldl_write_int_streaming (ss : List (bit_depth_t × Int)) (w : WavFile)
    (p : List Nat) (h : streaming w.fout_ p) :
    streaming (ss.foldl write_int w).fout_ (p ++ samples_bytes ss) := by
  induction ss generalizing w p with
  | nil => simpa [samples_bytes] using h
  | cons s ss ih =>
    have h1 : streaming (write_int w s).fout_ (p ++ sample_bytes s.1 (.int s.2)) := by
      rw [(write_int_members w s).2.2.2.2]
      exact streaming_write _ _ _ h
    have h2 := ih (write_int w s) _ h1
    rw [List.foldl_cons]
    simpa [samples_bytes, List.append_assoc] using h2

/-! ## The status query -/

/-- C11 (counterexample): a fresh writer is opened successfully (file attached, no failure)
and closed; the file is detached, yet the status query still reports true, not false. -/
theorem status_true_after_close :
    (WavFile.init.open true .WAV_16BIT .WAV_MONO 44100).fout_.is_open = true
    ∧ (WavFile.init.open true .WAV_16BIT .WAV_MONO 44100).to_bool = true
    ∧ (WavFile.init.open true .WAV_16BIT .WAV_MONO 44100).close.fout_.is_open = false
    ∧ (WavFile.init.open true .WAV_16BIT .WAV_MONO 44100).close.to_bool ≠ false := by
  decide

/-- C11 (amended): after `close` on a writer whose stream is open and has not failed the
file is detached and the status query still reports true, because it tells whether a
stream operation has failed and the close succeeded; a second `close` makes it report
false. -/
theorem status_after_close (w : WavFile) (hopen : w.fout_.is_open = true)
    (hgood : w.fout_.fail = false) :
    w.close.fout_.is_open = false
    ∧ w.close.to_bool = true
    ∧ w.close.close.to_bool = false := by
  simp [WavFile.close, WavFile.to_bool, ofstream.seekp, ofstream.write, ofstream.close,
    hopen, hgood]

/-- C11 (amended), witness: 16-bit mono at 44100 Hz, opened and closed. -/
theorem status_after_close_witness :
    (WavFile.init.open true .WAV_16BIT .WAV_MONO 44100).fout_.is_open = true
    ∧ (WavFile.init.open true .WAV_16BIT .WAV_MONO 44100).fout_.fail = false
    ∧ (WavFile.init.open true .WAV_16BIT .WAV_MONO 44100).close.fout_.is_open = false
    ∧ (WavFile.init.open true .WAV_16BIT .WAV_MONO 44100).close.to_bool = true
    ∧ (WavFile.init.open true .WAV_16BIT .WAV_MONO 44100).close.close.to_bool = false :=
  ⟨rfl, rfl, status_after_close (WavFile.init.open true .WAV_16BIT .WAV_MONO 44100) rfl rfl⟩

theorem open_failed (w : WavFile) (b : bit_depth_t) (c : channels_t) (r : Nat) :
    (w.open false b c r).fout_.fail = true
    ∧ (w.open false b c r).fout_.file = w.fout_.file
    ∧ (w.open false b c r).fout_.pos = w.fout_.pos
    ∧ (w.open false b c r).fout_.is_open = w.fout_.is_open := by
  cases ho : w.fout_.is_open <;>
    simp [WavFile.open, ofstream.open, ofstream.seekp, ho]

theorem close_failed (w : WavFile) (hf : w.fout_.fail = true) : w.close = w := by
  simp [WavFile.close, hf]

/-- C12: when the system does not grant the file, `open` returns with the status query
false and the file bytes and put position as they were; then every sequence of sample
writes (floating-point arguments in [-1, 1]) returns and leaves the stream as it is, and so
does `close` after them: no payload byte and no header is written. -/
theorem open_failure_reported_by_status (w : WavFile) (b : bit_depth_t) (c : channels_t)
    (r : Nat) (cs : List write_call) (hcs : ∀ d ∈ cs, d.normalised) :
    (w.open false b c r).to_bool = false
    ∧ (w.open false b c r).fout_.file = w.fout_.file
    ∧ (w.open false b c r).fout_.pos = w.fout_.pos
    ∧ ∃ w1, run_calls (w.open false b c r) cs = some w1
        ∧ w1.fout_ = (w.open false b c r).fout_
        ∧ w1.to_bool = false
        ∧ w1.close.fout_ = (w.open false b c r).fout_
        ∧ w1.close.to_bool = false := by
  obtain ⟨hf, hfile, hpos, -⟩ := open_failed w b c r
  obtain ⟨hrun, -⟩ := run_calls_eq_samples cs (w.open false b c r) hcs
  have h1 := foldl_write_int_failed (cs.flatMap write_call.samples) (w.open false b c r) hf
  have hf1 : ((cs.flatMap write_call.samples).foldl write_int (w.open false b c r)).fout_.fail
      = true := by rw [h1]; exact hf
  refine ⟨by simp [WavFile.to_bool, hf], hfile, hpos, _, hrun, h1, ?_, ?_, ?_⟩
  · simp [WavFile.to_bool, hf1]
  · rw [close_failed _ hf1, h1]
  · rw [close_failed _ hf1]
    simp [WavFile.to_bool, hf1]

/-- C12, witness: a fresh writer whose file is not granted, then a 16-bit integer write, a
24-bit floating-point stereo write and `close`: the file stays empty. -/
theorem open_failure_reported_by_status_witness :
    (∀ d ∈ [write_call.mono_16bit 1, write_call.stereo_24bit_double 1 (-1)], d.normalised)
    ∧ (WavFile.init.open false .WAV_16BIT .WAV_MONO 44100).to_bool = false
    ∧ ∃ w1, run_calls (WavFile.init.open false .WAV_16BIT .WAV_MONO 44100)
          [write_call.mono_16bit 1, write_call.stereo_24bit_double 1 (-1)] = some w1
        ∧ w1.close.fout_.file = [] ∧ w1.close.to_bool = false := by
  have hn : ∀ d ∈ [write_call.mono_16bit 1, write_call.stereo_24bit_double 1 (-1)],
      d.normalised := by
    intro d hd
    simp only [List.mem_cons, List.mem_singleton, List.not_mem_nil, or_false] at hd
    rcases hd with rfl | rfl <;> simp [write_call.normalised]
  obtain ⟨h0, -, -, w1, hrun, -, -, hclose, hst⟩ :=
    open_failure_reported_by_status WavFile.init .WAV_16BIT .WAV_MONO 44100 _ hn
  exact ⟨hn, h0, w1, hrun, by rw [hclose]; rfl, hst⟩

/-- C13 (counterexample): on a default-constructed, never-opened writer the status query
reports true before `close` and false after it, so `close` does change an observable. -/
theorem close_never_opened_changes_status :
    WavFile.init.to_bool = true ∧ WavFile.init.close.to_bool = false
    ∧ WavFile.init.close.to_bool ≠ WavFile.init.to_bool := by
  decide

/-- C13 (amended): on a writer with no file attached, in particular a default-constructed
one, `close` writes nothing: the file bytes, the put position, the attachment state, the
format parameters and the payload counter are unchanged; the status query reports false
afterwards. -/
theorem close_not_open (w : WavFile) (hclosed : w.fout_.is_open = false) :
    w.close.fout_.file = w.fout_.file
    ∧ w.close.fout_.pos = w.fout_.pos
    ∧ w.close.fout_.is_open = w.fout_.is_open
    ∧ w.close.get_bit_depth = w.get_bit_depth
    ∧ w.close.get_channels = w.get_channels
    ∧ w.close.get_sample_rate = w.get_sample_rate
    ∧ w.close.data_size_ = w.data_size_
    ∧ w.close.to_bool = false := by
  cases hf : w.fout_.fail <;>
    simp [WavFile.close, WavFile.to_bool, WavFile.get_bit_depth, WavFile.get_channels,
      WavFile.get_sample_rate, ofstream.seekp, ofstream.write, ofstream.close, hclosed, hf]

/-- C13 (amended), witness: the default-constructed writer. -/
theorem close_not_open_witness :
    WavFile.init.fout_.is_open = false
    ∧ WavFile.init.close.fout_.file = []
    ∧ WavFile.init.close.data_size_ = 0
    ∧ WavFile.init.close.to_bool = false := by
  have h := close_not_open WavFile.init rfl
  exact ⟨rfl, h.1, h.2.2.2.2.2.2.1, h.2.2.2.2.2.2.2⟩

/-! ## The bytes after the header -/

/-- C14: on a writer whose stream is open and has not failed and whose file already
extends to offset 44 or beyond (at least the reserved header space), `close` changes
neither the file length nor any byte at an offset of 44 or more. -/
theorem close_keeps_payload (w : WavFile) (hopen : w.fout_.is_open = true)
    (hgood : w.fout_.fail = false) (hlen : 44 ≤ w.fout_.file.length) :
    w.close.fout_.file.length = w.fout_.file.length
    ∧ w.close.fout_.file.drop 44 = w.fout_.file.drop 44
    ∧ ∀ i, 44 ≤ i → w.close.fout_.file[i]? = w.fout_.file[i]? := by
  have hfile := close_file w hopen hgood
  have hl := wav_header_length w
  have hdrop : w.close.fout_.file.drop 44 = w.fout_.file.drop 44 := by
    rw [hfile, List.drop_append_of_le_length (by omega), List.drop_of_length_le (by omega),
      List.nil_append]
  refine ⟨?_, hdrop, ?_⟩
  · rw [hfile, List.length_append, hl, List.length_drop]
    omega
  · intro i hi
    have e : i = 44 + (i - 44) := by omega
    rw [e, ← List.getElem?_drop, ← List.getElem?_drop, hdrop]


/-- C14, witness: after one 16-bit sample the file is 46 bytes long; `close` keeps the
length and the two payload bytes. -/
theorem close_keeps_payload_witness :
    44 ≤ ((WavFile.init.open true .WAV_16BIT .WAV_MONO 44100).write_mono_16bit
        0x7fff).fout_.file.length
    ∧ ((WavFile.init.open true .WAV_16BIT .WAV_MONO 44100).write_mono_16bit
        0x7fff).close.fout_.file.length = 46
    ∧ ((WavFile.init.open true .WAV_16BIT .WAV_MONO 44100).write_mono_16bit
        0x7fff).close.fout_.file.drop 44 = [0xff, 0x7f] := by
  have h := close_keeps_payload
    ((WavFile.init.open true .WAV_16BIT .WAV_MONO 44100).write_mono_16bit 0x7fff) rfl rfl
    (by decide)
  exact ⟨by decide, h.1, h.2.1⟩

/-! ## The payload written by a sequence of calls -/

theorem call_bytes_length (d : write_call) :
    d.bytes.length = 2 ∨ d.bytes.length = 3 ∨ d.bytes.length = 4 ∨ d.bytes.length = 6 := by
  cases d <;>
    simp [write_call.bytes, write_call.samples, samples_bytes, sample_bytes_length,
      bit_depth_t.val]

theorem streaming_file_of_ne_nil (s : ofstream) (p : List Nat) (h : streaming s p)
    (hp : p ≠ []) : s.file = List.replicate 44 0 ++ p := by
  rcases h.2.2.2 with ⟨-, h0⟩ | h1
  · exact absurd h0 hp
  · exact h1

theorem slice_payload (p : List Nat) : slice (List.replicate 44 0 ++ p) 44 p.length = p := by
  unfold slice
  rw [List.drop_append_of_le_length (by simp), List.drop_of_length_le (by simp),
    List.nil_append, List.take_length]

/-- C15: a freshly constructed writer is opened successfully and receives any sequence `cs`
of write calls and then one more call `d` (any mix of the eight writers, floating-point
arguments in [-1, 1]), fewer than 2^32 bytes in total.  Every call returns.  After `cs` the
counter is the number of bytes of `cs`, the put position is 44 plus the counter and the
bytes from offset 44 on are the serialised samples of `cs` in call order; the call `d`
appends its 2, 3, 4 or 6 bytes right after them and raises the counter by that number. -/
theorem calls_append_to_payload (b : bit_depth_t) (c : channels_t) (r : Nat)
    (cs : List write_call) (d : write_call) (hcs : ∀ e ∈ cs, e.normalised)
    (hd : d.normalised) (hN : (calls_bytes cs).length + d.bytes.length < 4294967296) :
    ∃ w w2, run_calls (WavFile.init.open true b c r) cs = some w
      ∧ d.run w = some w2
      ∧ w.data_size_ = (calls_bytes cs).length
      ∧ w.fout_.pos = 44 + w.data_size_
      ∧ w.fout_.file.drop 44 = calls_bytes cs
      ∧ (d.bytes.length = 2 ∨ d.bytes.length = 3 ∨ d.bytes.length = 4 ∨ d.bytes.length = 6)
      ∧ w2.data_size_ = w.data_size_ + d.bytes.length
      ∧ w2.fout_.pos = 44 + w2.data_size_
      ∧ w2.fout_.file = List.replicate 44 0 ++ (calls_bytes cs ++ d.bytes)
      ∧ slice w2.fout_.file 44 w2.data_size_ = calls_bytes cs ++ d.bytes := by
  obtain ⟨hrun, hb⟩ := run_calls_eq_samples cs (WavFile.init.open true b c r) hcs
  have hst := foldl_write_int_streaming (cs.flatMap write_call.samples)
    (WavFile.init.open true b c r) [] (streaming_open _ rfl)
  obtain ⟨hds, -, -, -⟩ := foldl_write_int_members (cs.flatMap write_call.samples)
    (WavFile.init.open true b c r) (show (0 : Nat) < 4294967296 by decide)
  rw [hb, List.nil_append] at hst
  rw [hb] at hds
  have hds0 : ((cs.flatMap write_call.samples).foldl write_int
      (WavFile.init.open true b c r)).data_size_ = (calls_bytes cs).length := by
    rw [hds]
    show u32 (0 + (calls_bytes cs).length) = _
    rw [Nat.zero_add, u32, Nat.mod_eq_of_lt (by omega)]
  generalize (cs.flatMap write_call.samples).foldl write_int (WavFile.init.open true b c r)
    = w at hrun hst hds0
  have hrun2 := run_eq_samples w d hd
  have hst2 := foldl_write_int_streaming d.samples w _ hst
  obtain ⟨hds2, -, -, -⟩ := foldl_write_int_members d.samples w (by omega)
  have hlen := call_bytes_length d
  have hds2 : (d.samples.foldl write_int w).data_size_ = w.data_size_ + d.bytes.length := by
    rw [hds2, hds0]
    show u32 ((calls_bytes cs).length + d.bytes.length) = _
    rw [u32, Nat.mod_eq_of_lt hN]
  have hne : calls_bytes cs ++ samples_bytes d.samples ≠ [] := by
    intro h0
    have : (calls_bytes cs ++ d.bytes).length = 0 := by
      show (calls_bytes cs ++ samples_bytes d.samples).length = 0
      rw [h0]; rfl
    rw [List.length_append] at this
    omega
  have hfile2 := streaming_file_of_ne_nil _ _ hst2 hne
  refine ⟨w, d.samples.foldl write_int w, hrun, hrun2, hds0, ?_, streaming_drop _ _ hst, hlen,
    hds2, ?_, hfile2, ?_⟩
  · rw [hst.2.2.1, hds0]
  · rw [hst2.2.2.1, hds2, hds0, List.length_append]
    show _ = 44 + ((calls_bytes cs).length + (samples_bytes d.samples).length)
    omega
  · rw [hfile2, hds2, hds0]
    have := slice_payload (calls_bytes cs ++ samples_bytes d.samples)
    rw [List.length_append] at this
    exact this

/-- C15, witness: 24-bit stereo at 48000 Hz; the 16-bit floating-point writes of
0x1.0002000400080p-15 (sample 1) and -0.5 (sample -16383) followed by
`write_stereo_24bit(0x123456, -1)` leave 01 00 01 c0 56 34 12 ff ff ff after the header
space. -/
theorem calls_append_to_payload_witness :
    ∃ w w2, run_calls (WavFile.init.open true .WAV_24BIT .WAV_STEREO 48000)
          [write_call.mono_16bit_double double_below_inv_32767,
           write_call.mono_16bit_double (-1 / 2)] = some w
      ∧ (write_call.stereo_24bit 0x123456 (-1)).run w = some w2
      ∧ w.data_size_ = 4
      ∧ w2.data_size_ = 10
      ∧ w2.fout_.pos = 54
      ∧ w2.fout_.file.drop 44
          = [0x01, 0x00, 0x01, 0xc0, 0x56, 0x34, 0x12, 0xff, 0xff, 0xff] := by
  have t1 : trunc_toward_zero (fl (0x7fff * double_below_inv_32767)) = 1 := by
    rw [fl_product_below_one]
    exact_mod_cast trunc_toward_zero_intCast 1
  have eb : calls_bytes [write_call.mono_16bit_double double_below_inv_32767,
      write_call.mono_16bit_double (-1 / 2)] = [0x01, 0x00, 0x01, 0xc0] := by
    simp only [calls_bytes, write_call.bytes, write_call.samples, samples_bytes, sample_bytes,
      t1, trunc_minus_half_product, List.append_nil]
    decide
  have hn : ∀ d ∈ [write_call.mono_16bit_double double_below_inv_32767,
      write_call.mono_16bit_double (-1 / 2)], d.normalised := by
    intro d hd
    simp only [List.mem_cons, List.mem_singleton, List.not_mem_nil, or_false] at hd
    rcases hd with rfl | rfl
    · constructor <;> norm_num [double_below_inv_32767]
    · constructor <;> norm_num
  obtain ⟨w, w2, h1, h2, h3, -, -, -, h7, h8, h9, -⟩ :=
    calls_append_to_payload .WAV_24BIT .WAV_STEREO 48000
      [write_call.mono_16bit_double double_below_inv_32767,
       write_call.mono_16bit_double (-1 / 2)] (write_call.stereo_24bit 0x123456 (-1)) hn
      trivial (by rw [eb]; decide)
  rw [eb] at h3 h9
  refine ⟨w, w2, h1, h2, h3, ?_, ?_, ?_⟩
  · rw [h7, h3]; rfl
  · rw [h8, h7, h3]; rfl
  · rw [h9]; decide

/-! ## The payload counter -/

theorem iterate_write_mono_16bit_counter (n : Nat) (w : WavFile)
    (hd : w.data_size_ < 4294967296) :
    (Nat.iterate (fun v => v.write_mono_16bit 0) n w).data_size_
      = u32 (w.data_size_ + 2 * n) := by
  induction n generalizing w with
  | zero =>
    simp only [Function.iterate_zero, id_eq, Nat.mul_zero, Nat.add_zero, u32]
    omega
  | succ n ih =>
    rw [Function.iterate_succ_apply, ih (w.write_mono_16bit 0) (u32_lt _)]
    show u32 (u32 (w.data_size_ + 2) + 2 * n) = _
    rw [u32_add_u32]
    congr 1
    omega

/-- C16 (counterexample): after 2147483647 calls of `write_mono_16bit` on a freshly opened
writer the counter is 4294967294; one more call makes it 0, which is not greater. -/
theorem counter_wraps_to_zero :
    (Nat.iterate (fun v => v.write_mono_16bit 0) 2147483647
        (WavFile.init.open true .WAV_16BIT .WAV_MONO 44100)).data_size_ = 4294967294
    ∧ ((Nat.iterate (fun v => v.write_mono_16bit 0) 2147483647
        (WavFile.init.open true .WAV_16BIT .WAV_MONO 44100)).write_mono_16bit 0).data_size_ = 0
    ∧ ¬ ((Nat.iterate (fun v => v.write_mono_16bit 0) 2147483647
          (WavFile.init.open true .WAV_16BIT .WAV_MONO 44100)).data_size_
        < ((Nat.iterate (fun v => v.write_mono_16bit 0) 2147483647
          (WavFile.init.open true .WAV_16BIT .WAV_MONO 44100)).write_mono_16bit 0).data_size_) := by
  have h := iterate_write_mono_16bit_counter 2147483647
    (WavFile.init.open true .WAV_16BIT .WAV_MONO 44100) (show (0 : Nat) < 4294967296 by decide)
  have h1 : (Nat.iterate (fun v => v.write_mono_16bit 0) 2147483647
      (WavFile.init.open true .WAV_16BIT .WAV_MONO 44100)).data_size_ = 4294967294 := by
    rw [h]; decide
  have h2 : ((Nat.iterate (fun v => v.write_mono_16bit 0) 2147483647
      (WavFile.init.open true .WAV_16BIT .WAV_MONO 44100)).write_mono_16bit 0).data_size_
      = 0 := by
    show u32 (_ + 2) = 0
    rw [h1]; decide
  refine ⟨h1, h2, ?_⟩
  rw [h1, h2]
  decide

/-- C16 (amended): for every writer state with a 32-bit counter and every sample-write call
(floating-point arguments in [-1, 1]) the call returns and the counter becomes the old
counter plus the 2, 3, 4 or 6 bytes of the call, reduced modulo 2^32: strictly greater than
before when the sum stays below 2^32, strictly smaller otherwise. -/
theorem counter_after_call (w : WavFile) (d : write_call) (hd : d.normalised)
    (hw : w.data_size_ < 4294967296) :
    ∃ w1, d.run w = some w1
      ∧ w1.data_size_ = (w.data_size_ + d.bytes.length) % 4294967296
      ∧ (w.data_size_ + d.bytes.length < 4294967296 →
          w1.data_size_ = w.data_size_ + d.bytes.length ∧ w.data_size_ < w1.data_size_)
      ∧ (4294967296 ≤ w.data_size_ + d.bytes.length → w1.data_size_ < w.data_size_) := by
  obtain ⟨hds, -, -, -⟩ := foldl_write_int_members d.samples w hw
  have hlen := call_bytes_length d
  have hds1 : (d.samples.foldl write_int w).data_size_
      = (w.data_size_ + d.bytes.length) % 4294967296 := hds
  refine ⟨_, run_eq_samples w d hd, hds1, ?_, ?_⟩
  · intro h
    rw [hds1, Nat.mod_eq_of_lt h]
    omega
  · intro h
    rw [hds1]
    omega

/-- C16 (amended), witness: on a freshly opened writer `write_stereo_24bit` raises the
counter from 0 to 6. -/
theorem counter_after_call_witness :
    ∃ w1, (write_call.stereo_24bit 0x123456 (-1)).run
          (WavFile.init.open true .WAV_24BIT .WAV_STEREO 48000) = some w1
      ∧ w1.data_size_ = 6
      ∧ (WavFile.init.open true .WAV_24BIT .WAV_STEREO 48000).data_size_ < w1.data_size_ := by
  obtain ⟨w1, h1, -, h3, -⟩ := counter_after_call
    (WavFile.init.open true .WAV_24BIT .WAV_STEREO 48000)
    (write_call.stereo_24bit 0x123456 (-1)) trivial (show (0 : Nat) < 4294967296 by decide)
  obtain ⟨h4, h5⟩ := h3 (by decide)
  exact ⟨w1, h1, h4, h5⟩

/-! ## Accessors and mutators -/

/-- C17: on every writer, open or not, each setter makes its getter return the value set and
leaves the other two parameters, the payload counter and the stream (file bytes, put
position, state) as they were; and when the stream is open and has not failed the header
written by a later `close` holds the value set: bits per sample and block align from
`set_bit_depth`, the channel count from `set_channels`, the sample rate from
`set_sample_rate`. -/
theorem setters_change_one_parameter (w : WavFile) (b : bit_depth_t) (c : channels_t)
    (r : Nat) :
    ((w.set_bit_depth b).get_bit_depth = b
      ∧ (w.set_bit_depth b).get_channels = w.get_channels
      ∧ (w.set_bit_depth b).get_sample_rate = w.get_sample_rate
      ∧ (w.set_bit_depth b).data_size_ = w.data_size_
      ∧ (w.set_bit_depth b).fout_ = w.fout_)
    ∧ ((w.set_channels c).get_channels = c
      ∧ (w.set_channels c).get_bit_depth = w.get_bit_depth
      ∧ (w.set_channels c).get_sample_rate = w.get_sample_rate
      ∧ (w.set_channels c).data_size_ = w.data_size_
      ∧ (w.set_channels c).fout_ = w.fout_)
    ∧ ((w.set_sample_rate r).get_sample_rate = r
      ∧ (w.set_sample_rate r).get_bit_depth = w.get_bit_depth
      ∧ (w.set_sample_rate r).get_channels = w.get_channels
      ∧ (w.set_sample_rate r).data_size_ = w.data_size_
      ∧ (w.set_sample_rate r).fout_ = w.fout_)
    ∧ (w.fout_.is_open = true → w.fout_.fail = false →
        slice (w.set_bit_depth b).close.fout_.file 34 2 = le_bytes 2 (b.val * 8)
        ∧ slice (w.set_bit_depth b).close.fout_.file 32 2
            = le_bytes 2 (w.channels_.val * b.val)
        ∧ slice (w.set_channels c).close.fout_.file 22 2 = le_bytes 2 c.val
        ∧ slice (w.set_sample_rate r).close.fout_.file 24 4 = le_bytes 4 r) := by
  have e34 : u16 (u32 (b.val * 8)) = b.val * 8 := by cases b <;> rfl
  have e32 : u16 (u32 (u16 w.channels_.val * b.val)) = w.channels_.val * b.val := by
    cases w.channels_ <;> cases b <;> rfl
  refine ⟨⟨rfl, rfl, rfl, rfl, rfl⟩, ⟨rfl, rfl, rfl, rfl, rfl⟩, ⟨rfl, rfl, rfl, rfl, rfl⟩,
    fun hopen hgood => ⟨?_, ?_, ?_, ?_⟩⟩
  · rw [close_slice (w.set_bit_depth b) hopen hgood 34 2 (by decide),
      (wav_header_slices (w.set_bit_depth b)).2.2.2.2.2.2.2.2.2.2.1]
    exact congrArg (le_bytes 2) e34
  · rw [close_slice (w.set_bit_depth b) hopen hgood 32 2 (by decide),
      (wav_header_slices (w.set_bit_depth b)).2.2.2.2.2.2.2.2.2.1]
    exact congrArg (le_bytes 2) e32
  · rw [close_slice (w.set_channels c) hopen hgood 22 2 (by decide),
      (wav_header_slices (w.set_channels c)).2.2.2.2.2.2.1]
    exact congrArg (le_bytes 2) (u16_channels c)
  · rw [close_slice (w.set_sample_rate r) hopen hgood 24 4 (by decide),
      (wav_header_slices (w.set_sample_rate r)).2.2.2.2.2.2.2.1]
    rfl

/-- C17, witness: a writer opened as 16-bit mono at 44100 Hz and then set to 24-bit, stereo
and 48000 Hz closes with 24 bits per sample, 2 channels and sample rate 48000 (80 bb 00 00)
in the header. -/
theorem setters_change_one_parameter_witness :
    slice ((WavFile.init.open true .WAV_16BIT .WAV_MONO 44100).set_bit_depth
        .WAV_24BIT).close.fout_.file 34 2 = [24, 0]
    ∧ slice ((WavFile.init.open true .WAV_16BIT .WAV_MONO 44100).set_channels
        .WAV_STEREO).close.fout_.file 22 2 = [2, 0]
    ∧ slice ((WavFile.init.open true .WAV_16BIT .WAV_MONO 44100).set_sample_rate
        48000).close.fout_.file 24 4 = [0x80, 0xbb, 0x00, 0x00]
    ∧ ((WavFile.init.open true .WAV_16BIT .WAV_MONO 44100).set_sample_rate
        48000).get_bit_depth = .WAV_16BIT := by
  have h := setters_change_one_parameter (WavFile.init.open true .WAV_16BIT .WAV_MONO 44100)
    .WAV_24BIT .WAV_STEREO 48000
  have g := h.2.2.2 rfl rfl
  exact ⟨g.1, g.2.2.1, g.2.2.2, h.2.2.1.2.1⟩


/-! ## Range of the converted samples -/

end WavEnc
